import Mathlib

/-!
Verification development for the metadata decode-classify-normalize pipeline
of an image-browser application.  The TypeScript source (metadata extraction,
format classification, per-format parsers, field normalizers, board resolver)
is shallowly embedded below: JavaScript strings become `String`, JavaScript
numbers become `Rat` (exact rationals; floating rounding is not modelled),
JSON/dynamic values become the inductive `JValue`, thrown exceptions become
`Except`, and the mutable board cache becomes explicit state passing.
JavaScript evaluation is modelled faithfully on the ASCII fragment that the
source manipulates (chunk keywords, parameter grammars, node-type keywords).
-/

namespace ImgMeta

/-- JavaScript dynamic values as produced by `JSON.parse` plus `undefined`
(absent properties).  Numbers are modelled as exact rationals. -/
inductive JValue where
  | jundefined
  | jnull
  | bool (b : Bool)
  | num (q : Rat)
  | str (s : String)
  | arr (xs : List JValue)
  | obj (fields : List (String × JValue))

namespace JValue

/-- JavaScript truthiness: `undefined`, `null`, `false`, `0`, `""` are falsy;
objects and arrays (even empty) are truthy. -/
def truthy : JValue → Bool
  | .jundefined => false
  | .jnull => false
  | .bool b => b
  | .num q => q != 0
  | .str s => s != ""
  | .arr _ => true
  | .obj _ => true

/-- Property access `v[key]` on a dynamic value.  On plain objects the last
binding for a key wins (as after `JSON.parse` overwriting duplicates or a
later assignment); on every non-object the named property is absent.  (String
`.length`-style built-ins are not modelled; the source never reads them on
dynamic values.) -/
def getProp (v : JValue) (key : String) : JValue :=
  match v with
  | .obj fs => fs.foldl (fun acc p => if p.1 = key then p.2 else acc) .jundefined
  | _ => .jundefined

/-- JavaScript `a || b`. -/
def jor (a b : JValue) : JValue := if a.truthy then a else b

/-- `Object.entries(v)`: object fields in order; arrays as index/value pairs;
strings as index/character pairs; primitives have no enumerable entries. -/
def entries : JValue → List (String × JValue)
  | .obj fs => fs
  | .arr xs => (List.range xs.length).zip xs |>.map (fun p => (Nat.repr p.1, p.2))
  | .str s => (List.range s.data.length).zip s.data |>.map
      (fun p => (Nat.repr p.1, .str (String.mk [p.2])))
  | _ => []

end JValue

/-! ### ASCII string helpers (models of the JavaScript string built-ins) -/

/-- `String.prototype.toLowerCase`, faithful on ASCII (the only keywords the
source compares case-insensitively are ASCII). -/
def jsLower (s : String) : String := String.mk (s.data.map Char.toLower)

/-- Is `needle` a contiguous sublist of `hay`? (`String.prototype.includes`.) -/
def subList (needle : List Char) : List Char → Bool
  | [] => needle.isEmpty
  | c :: cs => needle.isPrefixOf (c :: cs) || subList needle cs

/-- `hay.includes(needle)`. -/
def jsIncludes (hay needle : String) : Bool := subList needle.data hay.data

/-- Index of the first occurrence of `needle` in `hay` at position `≥ from`,
as `hay.indexOf(needle, from)` (absent occurrence modelled as `none`). -/
def indexOfFromAux (needle : List Char) : List Char → Nat → Option Nat
  | [], i => if needle.isEmpty then some i else none
  | c :: cs, i =>
    if needle.isPrefixOf (c :: cs) then some i else indexOfFromAux needle cs (i + 1)

def jsIndexOfFrom (hay needle : String) (start : Nat) : Option Nat :=
  match indexOfFromAux needle.data (hay.data.drop start) start with
  | some i => some i
  | none => none

def jsIndexOf (hay needle : String) : Option Nat := jsIndexOfFrom hay needle 0

/-- The JavaScript whitespace class `\s`, restricted to its ASCII members. -/
def isJsWs (c : Char) : Bool :=
  c = ' ' || c = '\t' || c = '\n' || c = '\r' || c = '\x0b' || c = '\x0c'

/-- `String.prototype.trim`. -/
def jsTrim (s : String) : String :=
  String.mk (((s.data.dropWhile isJsWs).reverse.dropWhile isJsWs).reverse)

/-- `s.substring(a, b)` for `a ≤ b` (arguments are swapped when `a > b`,
as in JavaScript). -/
def jsSubstring (s : String) (a b : Nat) : String :=
  let lo := min a b
  let hi := max a b
  String.mk ((s.data.take hi).drop lo)

/-- `s.substring(a)` (to the end of the string). -/
def jsSubstringFrom (s : String) (a : Nat) : String := String.mk (s.data.drop a)

/-- `'0'-'9'`. -/
def isDigitC (c : Char) : Bool := '0' ≤ c && c ≤ '9'

/-- Value of a decimal digit character. -/
def digitVal (c : Char) : Nat := c.toNat - 48

/-- Natural value of a list of decimal digits (most significant first). -/
def digitsToNat (l : List Char) : Nat := l.foldl (fun a c => 10 * a + digitVal c) 0

/-- `parseInt(s, 10)`: skip leading whitespace, optional sign, then leading
decimal digits; `NaN` (no digits) is `none`. -/
def jsParseInt (s : String) : Option Rat :=
  let l := s.data.dropWhile isJsWs
  let (sign, l) : Int × List Char :=
    match l with
    | '-' :: rest => (-1, rest)
    | '+' :: rest => (1, rest)
    | _ => (1, l)
  let ds := l.takeWhile isDigitC
  if ds.isEmpty then none else some (mkRat (sign * digitsToNat ds) 1)

/-- `parseFloat(s)`: longest valid decimal prefix `[+-]?digits[.digits]`
(exponents are not used by the source's inputs); `NaN` is `none`. -/
def jsParseFloat (s : String) : Option Rat :=
  let l := s.data.dropWhile isJsWs
  let (sign, l) : Int × List Char :=
    match l with
    | '-' :: rest => (-1, rest)
    | '+' :: rest => (1, rest)
    | _ => (1, l)
  let ip := l.takeWhile isDigitC
  let rest := l.drop ip.length
  let fp := match rest with
    | '.' :: r => r.takeWhile isDigitC
    | _ => []
  if ip.isEmpty && fp.isEmpty then none
  else
    let den : Nat := 10 ^ fp.length
    some (mkRat (sign * (digitsToNat ip * den + digitsToNat fp)) den)

/-- JavaScript number-to-string coercion, exact for integers (the only values
the source interpolates into template strings in practice).  Non-integral
rationals are rendered by their `Rat` representation as a stand-in for the
floating decimal expansion. -/
def numToStr (q : Rat) : String := if q.den = 1 then toString q.num else toString q

/-- JavaScript string coercion of a dynamic value (as in `'' + v` or a
template literal).  Array elements are joined by commas with
`null`/`undefined` rendered empty; plain objects stringify to the
`[object Object]` sentinel. -/
def jsToStr : JValue → String
  | .jundefined => "undefined"
  | .jnull => "null"
  | .bool b => if b then "true" else "false"
  | .num q => numToStr q
  | .str s => s
  | .arr xs => String.intercalate ","
      (xs.map fun v => match v with
        | .jundefined => ""
        | .jnull => ""
        | .num q => numToStr q
        | .str s => s
        | .bool b => if b then "true" else "false"
        | _ => "[nested]")
  | .obj _ => "[object Object]"

/-! ### Model of `JSON.parse` (ECMA-404 grammar, fuel-bounded descent) -/

def isJsonWs (c : Char) : Bool := c = ' ' || c = '\t' || c = '\n' || c = '\r'

def hexVal (c : Char) : Option Nat :=
  if '0' ≤ c && c ≤ '9' then some (c.toNat - 48)
  else if 'a' ≤ c && c ≤ 'f' then some (c.toNat - 87)
  else if 'A' ≤ c && c ≤ 'F' then some (c.toNat - 55)
  else none

/-- JSON string body after the opening quote: returns content and remainder
after the closing quote. -/
def parseJStr : Nat → List Char → Option (List Char × List Char)
  | 0, _ => none
  | _ + 1, [] => none
  | fuel + 1, c :: cs =>
    if c = '"' then some ([], cs)
    else if c = '\\' then
      match cs with
      | [] => none
      | e :: cs' =>
        let dec : Option (Char × List Char) :=
          if e = '"' then some ('"', cs')
          else if e = '\\' then some ('\\', cs')
          else if e = '/' then some ('/', cs')
          else if e = 'b' then some ('\x08', cs')
          else if e = 'f' then some ('\x0c', cs')
          else if e = 'n' then some ('\n', cs')
          else if e = 'r' then some ('\r', cs')
          else if e = 't' then some ('\t', cs')
          else if e = 'u' then
            match cs' with
            | a :: b :: c2 :: d :: rest =>
              match hexVal a, hexVal b, hexVal c2, hexVal d with
              | some x, some y, some z, some w =>
                some (Char.ofNat (((x * 16 + y) * 16 + z) * 16 + w), rest)
              | _, _, _, _ => none
            | _ => none
          else none
        match dec with
        | some (ch, rest) =>
          match parseJStr fuel rest with
          | some (content, rem) => some (ch :: content, rem)
          | none => none
        | none => none
    else
      match parseJStr fuel cs with
      | some (content, rem) => some (c :: content, rem)
      | none => none

/-- JSON number literal: `-?digits(.digits)?([eE][+-]?digits)?`. -/
def parseJNum (l : List Char) : Option (Rat × List Char) :=
  let (sign, l1) : Int × List Char :=
    match l with
    | '-' :: rest => (-1, rest)
    | _ => (1, l)
  let ip := l1.takeWhile isDigitC
  if ip.isEmpty then none
  else
    let r1 := l1.drop ip.length
    let fracParsed : Option (List Char × List Char) :=
      match r1 with
      | '.' :: r =>
        let fp := r.takeWhile isDigitC
        if fp.isEmpty then none else some (fp, r.drop fp.length)
      | _ => some ([], r1)
    match fracParsed with
    | none => none
    | some (fp, r2) =>
      let (ex, r3) : Option Int × List Char :=
        match r2 with
        | e :: r =>
          if e = 'e' || e = 'E' then
            let (es, r') : Int × List Char :=
              match r with
              | '+' :: rr => (1, rr)
              | '-' :: rr => (-1, rr)
              | _ => (1, r)
            let ed := r'.takeWhile isDigitC
            if ed.isEmpty then (none, r2) else (some (es * digitsToNat ed), r'.drop ed.length)
          else (none, r2)
        | [] => (none, r2)
      let den : Nat := 10 ^ fp.length
      let numI : Int := sign * (digitsToNat ip * den + digitsToNat fp)
      let v : Rat :=
        match ex with
        | some e =>
          if e ≥ 0 then mkRat (numI * 10 ^ e.toNat) den
          else mkRat numI (den * 10 ^ (-e).toNat)
        | none => mkRat numI den
      some (v, r3)

/-- Case-sensitive literal match returning the remainder. -/
def literalAt (pat : List Char) (l : List Char) : Option (List Char) :=
  match pat, l with
  | [], rest => some rest
  | _ :: _, [] => none
  | p :: ps, c :: cs => if p = c then literalAt ps cs else none

/-- Insert a field into an object, overwriting in place on a duplicate key
(JavaScript object key order). -/
def objInsert (fs : List (String × JValue)) (k : String) (v : JValue) :
    List (String × JValue) :=
  if fs.any (fun p => p.1 = k) then fs.map (fun p => if p.1 = k then (k, v) else p)
  else fs ++ [(k, v)]

mutual

/-- JSON value (fuel-bounded; the fuel passed by `jsonParse` is generous
enough that it never runs out on an input that JSON.parse accepts). -/
def parseJVal : Nat → List Char → Option (JValue × List Char)
  | 0, _ => none
  | fuel + 1, l =>
    match l.dropWhile isJsonWs with
    | [] => none
    | c :: cs =>
      if c = '{' then parseJFields fuel (cs.dropWhile isJsonWs) []
      else if c = '[' then parseJElems fuel (cs.dropWhile isJsonWs) []
      else if c = '"' then
        match parseJStr (cs.length + 1) cs with
        | some (content, rest) => some (.str (String.mk content), rest)
        | none => none
      else if c = 't' then
        match literalAt ['r', 'u', 'e'] cs with
        | some rest => some (.bool true, rest)
        | none => none
      else if c = 'f' then
        match literalAt ['a', 'l', 's', 'e'] cs with
        | some rest => some (.bool false, rest)
        | none => none
      else if c = 'n' then
        match literalAt ['u', 'l', 'l'] cs with
        | some rest => some (.jnull, rest)
        | none => none
      else
        match parseJNum (c :: cs) with
        | some (q, rest) => some (.num q, rest)
        | none => none

/-- Array elements after `[`. -/
def parseJElems : Nat → List Char → List JValue → Option (JValue × List Char)
  | 0, _, _ => none
  | fuel + 1, l, acc =>
    match l with
    | ']' :: rest =>
      if acc.isEmpty then some (.arr [], rest) else none
    | _ =>
      match parseJVal fuel l with
      | some (v, rest) =>
        match rest.dropWhile isJsonWs with
        | ',' :: r2 => parseJElems fuel (r2.dropWhile isJsonWs) (acc ++ [v])
        | ']' :: r2 => some (.arr (acc ++ [v]), r2)
        | _ => none
      | none => none

/-- Object fields after `{`. -/
def parseJFields : Nat → List Char → List (String × JValue) →
    Option (JValue × List Char)
  | 0, _, _ => none
  | fuel + 1, l, acc =>
    match l with
    | '}' :: rest =>
      if acc.isEmpty then some (.obj [], rest) else none
    | '"' :: cs =>
      match parseJStr (cs.length + 1) cs with
      | some (key, r1) =>
        match r1.dropWhile isJsonWs with
        | ':' :: r2 =>
          match parseJVal fuel (r2.dropWhile isJsonWs) with
          | some (v, r3) =>
            let acc' := objInsert acc (String.mk key) v
            match r3.dropWhile isJsonWs with
            | ',' :: r4 => parseJFields fuel (r4.dropWhile isJsonWs) acc'
            | '}' :: r4 => some (.obj acc', r4)
            | _ => none
          | none => none
        | _ => none
      | none => none
    | _ => none

end

/-- Model of `JSON.parse`: `none` models a thrown `SyntaxError`. -/
def jsonParse (s : String) : Option JValue :=
  match parseJVal (2 * s.data.length + 4) s.data with
  | some (v, rest) => if (rest.dropWhile isJsonWs).isEmpty then some v else none
  | none => none

/-! ### Models of the source's regular expressions

Each regex the source applies is rendered as a dedicated scanner with the
same leftmost-match and greedy/backtracking behaviour on the character
classes involved. -/

/-- Case-insensitive literal match returning the remainder. -/
def matchCIAt (pat : List Char) (l : List Char) : Option (List Char) :=
  match pat, l with
  | [], rest => some rest
  | _ :: _, [] => none
  | p :: ps, c :: cs => if p.toLower = c.toLower then matchCIAt ps cs else none

/-- Greedy `\s*` followed by a non-empty capture of class `cls`, with the
regex backtracking over the whitespace run (needed because `\s` members can
also belong to `cls`, e.g. in `[^,\n]+`): try the longest whitespace skip
first, shrinking until the capture is non-empty. -/
def wsBack (cls : Char → Bool) (rest : List Char) : Nat → Option (List Char)
  | 0 =>
    let cap := rest.takeWhile cls
    if cap.isEmpty then none else some cap
  | k + 1 =>
    let cap := (rest.drop (k + 1)).takeWhile cls
    if cap.isEmpty then wsBack cls rest k else some cap

/-- First (leftmost) match of `KEY\s*(cls+)` case-insensitively; returns the
capture. -/
def findCaptureCI (key : List Char) (cls : Char → Bool) : List Char → Option (List Char)
  | [] => none
  | c :: cs =>
    match matchCIAt key (c :: cs) with
    | some rest =>
      match wsBack cls rest (rest.takeWhile isJsWs).length with
      | some cap => some cap
      | none => findCaptureCI key cls cs
    | none => findCaptureCI key cls cs

/-- `[^,\n]+` character class. -/
def notCommaNl (c : Char) : Bool := c ≠ ',' && c ≠ '\n'

/-- `[a-f0-9]+` with the `/i` flag. -/
def isHexC (c : Char) : Bool := isDigitC c || ('a' ≤ c.toLower && c.toLower ≤ 'f')

/-- First match of `Size:\s*(\d+)\s*x\s*(\d+)` (`/i`): both numeric captures. -/
def findSizeCapture : List Char → Option (Nat × Nat)
  | [] => none
  | c :: cs =>
    let here : Option (Nat × Nat) :=
      match matchCIAt ['s', 'i', 'z', 'e', ':'] (c :: cs) with
      | some rest =>
        let r1 := rest.dropWhile isJsWs
        let d1 := r1.takeWhile isDigitC
        if d1.isEmpty then none
        else
          let r2 := (r1.drop d1.length).dropWhile isJsWs
          match r2 with
          | x :: r3 =>
            if x.toLower = 'x' then
              let r4 := r3.dropWhile isJsWs
              let d2 := r4.takeWhile isDigitC
              if d2.isEmpty then none else some (digitsToNat d1, digitsToNat d2)
            else none
          | [] => none
      | none => none
    match here with
    | some r => some r
    | none => findSizeCapture cs

/-- First match of `Size:\s*([0-9]+x[0-9]+)` (`/i`): the combined capture
(digits, the matched `x`/`X`, digits). -/
def findSizeStr : List Char → Option (List Char)
  | [] => none
  | c :: cs =>
    let here : Option (List Char) :=
      match matchCIAt ['s', 'i', 'z', 'e', ':'] (c :: cs) with
      | some rest =>
        let r1 := rest.dropWhile isJsWs
        let d1 := r1.takeWhile isDigitC
        if d1.isEmpty then none
        else
          match r1.drop d1.length with
          | x :: r3 =>
            if x.toLower = 'x' then
              let d2 := r3.takeWhile isDigitC
              if d2.isEmpty then none else some (d1 ++ [x] ++ d2)
            else none
          | [] => none
      | none => none
    match here with
    | some r => some r
    | none => findSizeStr cs

/-- All captures of `<TAG:([^:>]+):[^>]*>` (`/gi`), continuing each scan after
the matched `>`. -/
def tagCaptures (tag : List Char) : Nat → List Char → List (List Char)
  | 0, _ => []
  | _ + 1, [] => []
  | fuel + 1, c :: cs =>
    let fail := tagCaptures tag fuel cs
    match matchCIAt tag (c :: cs) with
    | some rest =>
      let cap := rest.takeWhile (fun ch => ch ≠ ':' && ch ≠ '>')
      if cap.isEmpty then fail
      else
        match rest.drop cap.length with
        | ':' :: r2 =>
          let skip := r2.takeWhile (· ≠ '>')
          match r2.drop skip.length with
          | '>' :: r3 => cap :: tagCaptures tag fuel r3
          | _ => fail
        | _ => fail
    | none => fail

/-- `[A-Za-z0-9_]` (regex word characters). -/
def isWordC (c : Char) : Bool :=
  ('a' ≤ c.toLower && c.toLower ≤ 'z') || isDigitC c || c = '_'

/-- All captures of `\bTAG:([^\s,>]+)` (`/gi`): a word boundary, the literal
tag and colon, then a non-empty run outside `\s`, `,`, `>`.  `prevWord` says
whether the previous character was a word character. -/
def boundTagCaptures (tag : List Char) : Nat → Bool → List Char → List (List Char)
  | 0, _, _ => []
  | _ + 1, _, [] => []
  | fuel + 1, prevWord, c :: cs =>
    let fail := boundTagCaptures tag fuel (isWordC c) cs
    if prevWord then fail
    else
      match matchCIAt (tag ++ [':']) (c :: cs) with
      | some rest =>
        let cap := rest.takeWhile (fun ch => !isJsWs ch && ch ≠ ',' && ch ≠ '>')
        if cap.isEmpty then fail
        else cap :: boundTagCaptures tag fuel false (rest.drop cap.length)
      | none => fail

def isQuoteC (c : Char) : Bool := c = '\'' || c = '"'

/-- Backtracking search for the largest `p ≤ k` such that the quote-free
region `reg` truncated at `p` ends with `suffix` and the continuation
`\s*['"]` matches from there in `rest0`. -/
def suffixBack (suffix : List Char) (reg rest0 : List Char) : Nat → Option (List Char × List Char)
  | 0 => none
  | p + 1 =>
    let x := reg.take (p + 1)
    if suffix.isSuffixOf x then
      match (rest0.drop (p + 1)).dropWhile isJsWs with
      | q :: r => if isQuoteC q then some (x, r) else suffixBack suffix reg rest0 p
      | [] => suffixBack suffix reg rest0 p
    else suffixBack suffix reg rest0 p

/-- Single match attempt after an opening quote for
`['"]\s*([^'"]*\.safetensors|[^'"]*\.ckpt|[^'"]*\.pt)\s*['"]`: returns the
group (quote-free, ends with one of the suffixes) and the remainder after
the closing quote. -/
def quoteMatchAt (cs : List Char) : Option (List Char × List Char) :=
  let rest0 := cs.dropWhile isJsWs
  let reg := rest0.takeWhile (fun c => !isQuoteC c)
  match suffixBack ".safetensors".data reg rest0 reg.length with
  | some r => some r
  | none =>
    match suffixBack ".ckpt".data reg rest0 reg.length with
    | some r => some r
    | none => suffixBack ".pt".data reg rest0 reg.length

/-- All groups of the model-file regex over a string (`String.match` with
`/g`), scanning left to right and resuming after each full match. -/
def modelFileScanAux : Nat → List Char → List (List Char)
  | 0, _ => []
  | _ + 1, [] => []
  | fuel + 1, c :: cs =>
    if isQuoteC c then
      match quoteMatchAt cs with
      | some (x, rest) => x :: modelFileScanAux fuel rest
      | none => modelFileScanAux fuel cs
    else modelFileScanAux fuel cs

def modelFileScan (s : String) : List (List Char) :=
  modelFileScanAux s.data.length s.data

/-! ### Model of `JSON.stringify` -/

def hexDigitC (n : Nat) : Char :=
  if n < 10 then Char.ofNat (48 + n) else Char.ofNat (87 + n)

def escapeJChar (c : Char) : List Char :=
  if c = '"' then ['\\', '"']
  else if c = '\\' then ['\\', '\\']
  else if c = '\n' then ['\\', 'n']
  else if c = '\t' then ['\\', 't']
  else if c = '\r' then ['\\', 'r']
  else if c = '\x08' then ['\\', 'b']
  else if c = '\x0c' then ['\\', 'f']
  else if c.toNat < 32 then
    ['\\', 'u', '0', '0', hexDigitC (c.toNat / 16), hexDigitC (c.toNat % 16)]
  else [c]

def jsonQuote (s : String) : String :=
  "\"" ++ String.mk (s.data.foldr (fun c acc => escapeJChar c ++ acc) []) ++ "\""

/-- `JSON.stringify` (fuel-bounded on nesting depth; `undefined` at the top
level yields `none`, and `undefined`-valued object fields are skipped). -/
def jsonStringifyF : Nat → JValue → Option String
  | 0, _ => none
  | _ + 1, .jundefined => none
  | _ + 1, .jnull => some "null"
  | _ + 1, .bool b => some (if b then "true" else "false")
  | _ + 1, .num q => some (numToStr q)
  | _ + 1, .str s => some (jsonQuote s)
  | fuel + 1, .arr xs =>
    some ("[" ++ String.intercalate ","
      (xs.map fun x => (jsonStringifyF fuel x).getD "null") ++ "]")
  | fuel + 1, .obj fs =>
    let parts := fs.filterMap fun p =>
      match jsonStringifyF fuel p.2 with
      | some v => some (jsonQuote p.1 ++ ":" ++ v)
      | none => none
    some ("\x7b" ++ String.intercalate "," parts ++ "\x7d")

mutual

def jvalDepth : JValue → Nat
  | .arr xs => 1 + jvalDepthL xs
  | .obj fs => 1 + jvalDepthF fs
  | _ => 1

def jvalDepthL : List JValue → Nat
  | [] => 0
  | x :: xs => max (jvalDepth x) (jvalDepthL xs)

def jvalDepthF : List (String × JValue) → Nat
  | [] => 0
  | p :: ps => max (jvalDepth p.2) (jvalDepthF ps)

end

def jsonStringify (v : JValue) : Option String := jsonStringifyF (jvalDepth v + 1) v

/-! ### Data model -/

/-- The `NormalizedMetadata` / `BaseMetadata` cache record.  String-valued
fields keep their TypeScript type; the numeric fields hold the raw dynamic
value (`undefined`, a number, or — from lax InvokeAI projection — any raw
field value), so that the extractors' `typeof` guards are observable. -/
structure BaseMetadata where
  format : Option String := none
  prompt : String := ""
  negativePrompt : String := ""
  model : String := ""
  models : Option (List String) := none
  loras : Option (List String) := none
  scheduler : String := ""
  board : String := ""
  width : JValue := .jundefined
  height : JValue := .jundefined
  steps : JValue := .jundefined
  cfgScale : JValue := .jundefined
  seed : JValue := .jundefined

/-- Modelled from the spec: `ImageMetadata` is a tagged union with one
variant per generator (spec §3); the variant type declarations and the
duck-typed guards `isInvokeAIMetadata` / `isAutomatic1111Metadata` /
`isComfyUIMetadata` live in the types module, which is not under `src/`, so
the guards are modelled as constructor discrimination.  The InvokeAI variant
is the raw parsed JSON object (an ordered field list); the Unknown variant
is likewise a raw object (spec: "treated as a raw object for generic
fallback scanning").  Every variant optionally carries the
`normalizedMetadata` cache attached by the parsers. -/
inductive ImageMetadata where
  | invokeai (fields : List (String × JValue)) (normalizedMetadata : Option BaseMetadata)
  | automatic1111 (parameters : String) (normalizedMetadata : Option BaseMetadata)
  | comfyui (workflow : JValue) (promptG : JValue) (normalizedMetadata : Option BaseMetadata)
  | unknown (fields : List (String × JValue)) (normalizedMetadata : Option BaseMetadata)

/-- The attached `normalizedMetadata` cache (`'normalizedMetadata' in m`). -/
def getNM : ImageMetadata → Option BaseMetadata
  | .invokeai _ nm => nm
  | .automatic1111 _ nm => nm
  | .comfyui _ _ nm => nm
  | .unknown _ nm => nm

/-- Field lookup on a raw parsed JSON object (last binding wins). -/
def getField (fs : List (String × JValue)) (key : String) : JValue :=
  fs.foldl (fun acc p => if p.1 = key then p.2 else acc) .jundefined

/-- `metadata.parameters` as read by the extractors' embedded-Automatic1111
fast path: the Automatic1111 variant's own string, or a raw-object field. -/
def rawParams : ImageMetadata → JValue
  | .invokeai fs _ => getField fs "parameters"
  | .automatic1111 p _ => .str p
  | .comfyui _ _ _ => .jundefined
  | .unknown fs _ => getField fs "parameters"

/-! ### Board name resolver (module-level mutable cache, modelled as state) -/

structure BoardState where
  cache : List (String × String)
  counter : Nat

def initialBoardState : BoardState := ⟨[], 1⟩

/-- `getFriendlyBoardName`: look the id up in the cache; on a miss assign
`"My Board {counter}"`, store it and bump the counter. -/
def getFriendlyBoardName (boardId : String) (st : BoardState) : String × BoardState :=
  match st.cache.find? (fun p => p.1 = boardId) with
  | some p => (p.2, st)
  | none =>
    let friendlyName := "My Board " ++ Nat.repr st.counter
    (friendlyName, ⟨st.cache ++ [(boardId, friendlyName)], st.counter + 1⟩)

/-! ### ComfyUI negative-prompt heuristics -/

/-- The denylist predicate of the primary CLIP-text-encode pass
(`parseComfyUIMetadata`, first node loop). -/
def isNegativeTextPrimary (text : String) : Bool :=
  jsIncludes (jsLower text) "blur" || jsIncludes (jsLower text) "deform" ||
  jsIncludes (jsLower text) "ugly" || jsIncludes (jsLower text) "worst" ||
  jsIncludes (jsLower text) "low quality" || jsIncludes (jsLower text) "bad" ||
  jsIncludes (jsLower text) "negative"

/-- The denylist predicate of the fallback any-text-input pass
(`parseComfyUIMetadata`, "if no prompts found" loop). -/
def isNegativeTextFallback (text : String) : Bool :=
  jsIncludes (jsLower text) "blur" || jsIncludes (jsLower text) "deform" ||
  jsIncludes (jsLower text) "ugly" || jsIncludes (jsLower text) "worst" ||
  jsIncludes (jsLower text) "low quality" || jsIncludes (jsLower text) "bad"

/-! ### Automatic1111 parameter-string parser -/

/-- `parameters.search(/\n[A-Z][a-z]+:/)`: position of the first newline
followed by an uppercase letter, a non-empty lowercase run, and a colon. -/
def firstParamLineIdx (s : String) : Option Nat :=
  let rec go : List Char → Nat → Option Nat
    | [], _ => none
    | '\n' :: rest, i =>
      (match rest with
       | u :: tl =>
         if 'A' ≤ u && u ≤ 'Z' then
           let run := tl.takeWhile (fun c => 'a' ≤ c && c ≤ 'z')
           if !run.isEmpty && ((tl.drop run.length).head? == some ':') then some i
           else go rest (i + 1)
         else go rest (i + 1)
       | [] => none)
    | _ :: rest, i => go rest (i + 1)
  go s.data 0

/-- `parseA1111Metadata`: ordered pattern search over the Automatic1111
`parameters` string.  Each normalized field is assigned at most once by the
source, so the sequential mutations are rendered as one record literal with
a per-field expression (absent matches keep the declared defaults). -/
def parseA1111Metadata (parameters : String) : BaseMetadata :=
  let negativePromptIndex := jsIndexOf parameters "\nNegative prompt:"
  { prompt :=
      match negativePromptIndex with
      | some i => jsTrim (jsSubstring parameters 0 i)
      | none =>
        match firstParamLineIdx parameters with
        | some i => jsTrim (jsSubstring parameters 0 i)
        | none => jsTrim parameters
    negativePrompt :=
      match negativePromptIndex with
      | some i =>
        match jsIndexOfFrom parameters "\n" (i + 1) with
        | some e => jsTrim (jsSubstring parameters (i + 17) e)
        | none => jsTrim (jsSubstringFrom parameters (i + 17))
      | none => ""
    model :=
      match findCaptureCI "model:".data notCommaNl parameters.data with
      | some cap => jsTrim (String.mk cap)
      | none => ""
    steps :=
      match findCaptureCI "steps:".data isDigitC parameters.data with
      | some cap =>
        match jsParseInt (String.mk cap) with
        | some v => .num v
        | none => .num 0
      | none => .num 0
    scheduler :=
      match findCaptureCI "sampler:".data notCommaNl parameters.data with
      | some cap => jsTrim (String.mk cap)
      | none => ""
    cfgScale :=
      match findCaptureCI "cfg scale:".data (fun c => isDigitC c || c = '.') parameters.data with
      | some cap =>
        match jsParseFloat (String.mk cap) with
        | some v => .num v
        | none => .num 0
      | none => .num 0
    seed :=
      match findCaptureCI "seed:".data isDigitC parameters.data with
      | some cap =>
        match jsParseInt (String.mk cap) with
        | some v => .num v
        | none => .jundefined
      | none => .jundefined
    width :=
      match findSizeCapture parameters.data with
      | some (w, _) => .num w
      | none => .num 0
    height :=
      match findSizeCapture parameters.data with
      | some (_, h) => .num h
      | none => .num 0 }

/-! ### Model extraction

Functions whose JavaScript body can throw are typed `Except`: the error of
`Except σ σ` carries the accumulated result at the throw site for bodies
wrapped in their own `try`/`catch`, and `Except Unit` marks exceptions that
propagate to the caller. -/

/-- Resolve a `try { ... } catch { }` body that returns its partial state. -/
def runCatch {A : Type} : Except A A → A
  | .ok a => a
  | .error a => a

/-- Fold that stops at the first thrown exception, keeping the state. -/
def foldExc {σ α : Type} (f : σ → α → Except σ σ) : σ → List α → Except σ σ
  | s, [] => .ok s
  | s, x :: xs =>
    match f s x with
    | .ok s' => foldExc f s' xs
    | .error s' => .error s'

/-- `v[0]`. -/
def jIndex0 : JValue → JValue
  | .arr (x :: _) => x
  | .arr [] => .jundefined
  | .str s =>
    match s.data with
    | c :: _ => .str (String.mk [c])
    | [] => .jundefined
  | .obj fs => getField fs "0"
  | _ => .jundefined

/-- `v.length` as a dynamic value. -/
def jLengthNum : JValue → JValue
  | .arr xs => .num xs.length
  | .str s => .num s.data.length
  | .obj fs => getField fs "length"
  | _ => .jundefined

/-- `for (x of v)` on a truthy value: arrays iterate elements, strings
iterate characters, anything else throws. -/
def jIterate : JValue → Except Unit (List JValue)
  | .arr xs => .ok xs
  | .str s => .ok (s.data.map fun c => .str (String.mk [c]))
  | _ => .error ()

/-- Characters after the last occurrence of `sep` (`split(sep).pop()`). -/
def lastSegAfter (sep : Char) (s : String) : String :=
  String.mk ((s.data.reverse.takeWhile (· ≠ sep)).reverse)

/-- `extractModelName`: readable-name heuristic for a model value. -/
def extractModelName (modelData : JValue) : Option String :=
  match modelData with
  | .str s => some (jsTrim s)
  | .obj _ | .arr _ =>
    let probe := fun (k : String) => modelData.getProp k
    let names := [probe "name", probe "model", probe "model_name",
                  probe "base_model", probe "mechanism", probe "type"]
    match names.find? (fun v =>
        match v with
        | .str s => s ≠ "" && jsTrim s ≠ ""
        | _ => false) with
    | some (.str s) => some (jsTrim s)
    | _ =>
      match modelData.getProp "key" with
      | .str k =>
        if k ≠ "" then
          let key := jsTrim k
          if key.length > 20 && key.data.all (fun c => isHexC c || c = '-') then
            let mech := jsToStr (JValue.jor (modelData.getProp "mechanism")
              (JValue.jor (modelData.getProp "type") (.str "Model")))
            some (mech ++ " (" ++ jsSubstring key 0 8 ++ "...)")
          else some key
        else none
      | _ => none
  | _ => none

/-- Serialization of a normalized record, following the field order of the
InvokeAI parser's literal (the producer of every cache attached to an
InvokeAI variant); `undefined`-valued fields are skipped by the
stringifier. -/
def baseMetaToJ (b : BaseMetadata) : JValue :=
  .obj [
    ("format", match b.format with | some f => JValue.str f | none => JValue.jundefined),
    ("prompt", JValue.str b.prompt),
    ("model", JValue.str b.model),
    ("width", b.width), ("height", b.height), ("steps", b.steps),
    ("scheduler", JValue.str b.scheduler),
    ("negativePrompt", JValue.str b.negativePrompt),
    ("cfgScale", b.cfgScale), ("seed", b.seed),
    ("models", match b.models with
      | some l => JValue.arr (l.map JValue.str)
      | none => JValue.jundefined),
    ("loras", match b.loras with
      | some l => JValue.arr (l.map JValue.str)
      | none => JValue.jundefined)]

/-- `JSON.stringify(metadata)` for an InvokeAI variant (the raw object with
the attached `normalizedMetadata` property when present). -/
def invokeaiStringify (fs : List (String × JValue)) (nm : Option BaseMetadata) : String :=
  let o := match nm with
    | some b => objInsert fs "normalizedMetadata" (baseMetaToJ b)
    | none => fs
  (jsonStringify (.obj o)).getD ""

/-- `extractModelsFromInvokeAI`: structured model fields, then a
`.safetensors`/`.ckpt`/`.pt` scan over the stringified metadata. -/
def extractModelsFromInvokeAI (fs : List (String × JValue)) (nm : Option BaseMetadata) :
    List String :=
  let push := fun (models : List String) (v : JValue) =>
    if v.truthy then
      match extractModelName v with
      | some n => if n ≠ "" then models ++ [n] else models
      | none => models
    else models
  let models := push [] (getField fs "model")
  let models := push models (getField fs "base_model")
  let models := push models (getField fs "model_name")
  let metadataStr := jsLower (invokeaiStringify fs nm)
  let models := (modelFileScan metadataStr).foldl (fun ms cap =>
    let modelName := String.mk cap
    let m1 := lastSegAfter '/' modelName
    let modelName := if m1 = "" then modelName else m1
    let m2 := lastSegAfter '\\' modelName
    let modelName := if m2 = "" then modelName else m2
    if modelName ≠ "" && !ms.contains modelName then ms ++ [modelName] else ms) models
  models.filter (· ≠ "")

/-- `extractModelsFromAutomatic1111`: `Model:` capture, with a `Model hash:`
stand-in when no name was found. -/
def extractModelsFromAutomatic1111 (params : String) : List String :=
  let models :=
    match findCaptureCI "model:".data notCommaNl params.data with
    | some cap =>
      let n := jsTrim (String.mk cap)
      if n ≠ "" then [n] else []
    | none => []
  match findCaptureCI "model hash:".data isHexC params.data with
  | some cap =>
    let h := jsTrim (String.mk cap)
    if models.isEmpty then models ++ ["Model (" ++ jsSubstring h 0 8 ++ "...)"] else models
  | none => models

/-- `extractModelsFromComfyUI`: checkpoint-style nodes of the workflow
(UI graph) and prompt (execution graph); the whole body is wrapped in a
`catch` that returns the models collected so far. -/
def extractModelsFromComfyUI (workflowV promptV : JValue) : List String :=
  let res : Except (List String) (List String) :=
    let wfE : Except (List String) JValue :=
      match workflowV with
      | .str s =>
        match jsonParse s with
        | some v => .ok v
        | none => .error []
      | v => .ok v
    wfE.bind fun workflow =>
    let prE : Except (List String) JValue :=
      match promptV with
      | .str s =>
        match jsonParse s with
        | some v => .ok v
        | none => .error []
      | v => .ok v
    prE.bind fun promptP =>
    let stepW : List String → JValue → Except (List String) (List String) := fun ms node =>
      match node with
      | .jnull => .error ms
      | .jundefined => .error ms
      | _ =>
        let tv := node.getProp "type"
        let condE : Except (List String) Bool :=
          if tv.truthy then
            match tv with
            | .str s => .ok (jsIncludes (jsLower s) "checkpoint" || jsIncludes (jsLower s) "model")
            | _ => .error ms
          else .ok false
        condE.bind fun cond =>
          if cond then
            let wv := node.getProp "widgets_values"
            let ms :=
              if wv.truthy && (match jLengthNum wv with
                  | .num q => decide (q > 0)
                  | _ => false) then
                match jIndex0 wv with
                | .str s => if jsTrim s ≠ "" then ms ++ [jsTrim s] else ms
                | _ => ms
              else ms
            let inp := node.getProp "inputs"
            let ms :=
              if inp.truthy then
                (JValue.entries inp).foldl (fun ms p =>
                  if jsIncludes (jsLower p.1) "ckpt_name" || jsIncludes (jsLower p.1) "model" then
                    match p.2 with
                    | .str s => if jsTrim s ≠ "" then ms ++ [jsTrim s] else ms
                    | _ => ms
                  else ms) ms
              else ms
            .ok ms
          else .ok ms
    let wloop : Except (List String) (List String) :=
      if workflow.truthy && (workflow.getProp "nodes").truthy then
        match jIterate (workflow.getProp "nodes") with
        | .ok ns => foldExc stepW [] ns
        | .error _ => .error []
      else .ok []
    wloop.bind fun ms =>
    let stepP : List String → (String × JValue) → Except (List String) (List String) :=
      fun ms p =>
      let node := p.2
      match node with
      | .jnull => .error ms
      | .jundefined => .error ms
      | _ =>
        let tv := node.getProp "class_type"
        let condE : Except (List String) Bool :=
          if tv.truthy then
            match tv with
            | .str s => .ok (jsIncludes (jsLower s) "checkpoint")
            | _ => .error ms
          else .ok false
        condE.bind fun cond =>
          if cond then
            let inp := node.getProp "inputs"
            if inp.truthy then
              .ok ((JValue.entries inp).foldl (fun ms p =>
                if jsIncludes (jsLower p.1) "ckpt_name" || jsIncludes (jsLower p.1) "model" then
                  match p.2 with
                  | .str s => if jsTrim s ≠ "" then ms ++ [jsTrim s] else ms
                  | _ => ms
                else ms) ms)
            else .ok ms
          else .ok ms
    if promptP.truthy then foldExc stepP ms (JValue.entries promptP)
    else .ok ms
  (runCatch res).filter (· ≠ "")

/-- `extractModelsFromRawMetadata`: generic fallback over candidate field
names, plus a `CheckpointLoaderSimple` scan of a `workflow.nodes` array;
exceptions propagate to the caller. -/
def extractModelsFromRawMetadata (fs : List (String × JValue)) : Except Unit (List String) :=
  let models := ["model", "model_name", "ckpt_name", "checkpoint", "model_hash"].foldl
    (fun ms f =>
      let v := getField fs f
      if v.truthy then
        match extractModelName v with
        | some n => if n ≠ "" then ms ++ [n] else ms
        | none => ms
      else ms) []
  let wf := getField fs "workflow"
  match wf with
  | .jundefined => .ok models
  | .jnull => .ok models
  | _ =>
    let nodes := wf.getProp "nodes"
    if nodes.truthy then
      match jIterate nodes with
      | .error _ => .error ()
      | .ok ns =>
        foldExc (σ := List String) (fun ms node =>
          match node with
          | .jnull => .error ms
          | .jundefined => .error ms
          | _ =>
            if (match node.getProp "class_type" with
                | .str s => decide (s = "CheckpointLoaderSimple")
                | _ => false) then
              let inp := node.getProp "inputs"
              let ck := match inp with
                | .jnull => JValue.jundefined
                | .jundefined => JValue.jundefined
                | v => v.getProp "ckpt_name"
              if ck.truthy then
                match extractModelName ck with
                | some n => if n ≠ "" then .ok (ms ++ [n]) else .ok ms
                | none => .ok ms
              else .ok ms
            else .ok ms) models ns
        |>.mapError (fun _ => ())
    else .ok models

/-- `extractModels`: normalized-cache fast path, then format dispatch. -/
def extractModels (m : ImageMetadata) : Except Unit (List String) :=
  let dispatch : ImageMetadata → Except Unit (List String) := fun m =>
    match m with
    | .invokeai fs nm => .ok (extractModelsFromInvokeAI fs nm)
    | .automatic1111 p _ => .ok (extractModelsFromAutomatic1111 p)
    | .comfyui w pr _ => .ok (extractModelsFromComfyUI w pr)
    | .unknown fs nm =>
      match nm with
      | some b =>
        if b.model ≠ "" then .ok [b.model]
        else extractModelsFromRawMetadata fs
      | none => extractModelsFromRawMetadata fs
  match getNM m with
  | some nm =>
    match nm.models with
    | some l => .ok l
    | none => dispatch m
  | none => dispatch m

/-! ### LoRA extraction -/

/-- Push each capture, trimmed, skipping empties and duplicates. -/
def addCaps (loras : List String) (caps : List (List Char)) : List String :=
  caps.foldl (fun ls c =>
    let n := jsTrim (String.mk c)
    if n ≠ "" && !ls.contains n then ls ++ [n] else ls) loras

/-- The four prompt-embedded LoRA tag patterns of the InvokeAI path. -/
def loraPromptCaptures (promptText : String) : List String :=
  let d := promptText.data
  let l1 := addCaps [] (tagCaptures "<lora:".data d.length d)
  let l2 := addCaps l1 (tagCaptures "<lyco:".data d.length d)
  let l3 := addCaps l2 (boundTagCaptures "lora".data d.length false d)
  addCaps l3 (boundTagCaptures "lyco".data d.length false d)

/-- `extractLorasFromInvokeAI`: prompt-tag scan, the structured `loras`
array, and the single `lora` field.  The prompt-array join can throw (a
`null` element's `.prompt` access), which propagates to the caller. -/
def extractLorasFromInvokeAI (fs : List (String × JValue)) : Except Unit (List String) :=
  let promptTextE : Except Unit String :=
    match getField fs "prompt" with
    | .str s => .ok s
    | .arr xs =>
      (xs.mapM (fun p =>
        (match p with
         | .str s => Except.ok (JValue.str s)
         | .jnull => .error ()
         | .jundefined => .error ()
         | v => .ok (v.getProp "prompt") : Except Unit JValue))).map fun vs =>
          String.intercalate " " (vs.map fun v =>
            match v with
            | .str s => s
            | .jundefined => ""
            | .jnull => ""
            | v => jsToStr v)
    | _ => .ok ""
  promptTextE.bind fun promptText =>
  let loras := loraPromptCaptures promptText
  let loras :=
    match getField fs "loras" with
    | .arr items =>
      items.foldl (fun (ls : List String) (lora : JValue) =>
        let loraName : String :=
          match lora with
          | .str s => jsTrim s
          | .obj _ | .arr _ =>
            let directNames : List JValue :=
              [lora.getProp "name", lora.getProp "model_name", lora.getProp "key"] ++
              (match lora.getProp "model" with
               | .obj _ =>
                 let mv := lora.getProp "model"
                 [mv.getProp "name", mv.getProp "model", mv.getProp "model_name",
                  mv.getProp "key"]
               | .arr _ =>
                 let mv := lora.getProp "model"
                 [mv.getProp "name", mv.getProp "model", mv.getProp "model_name",
                  mv.getProp "key"]
               | .str s => if s ≠ "" then [JValue.str s] else []
               | _ => [])
            match directNames.find? (fun (v : JValue) =>
                match v with
                | .str s => decide ((jsTrim s).length > 0)
                | _ => false) with
            | some (.str s) => jsTrim s
            | _ => ""
          | _ => ""
        if loraName ≠ "" && loraName ≠ "[object Object]" && !ls.contains loraName then
          ls ++ [loraName]
        else ls) loras
    | _ => loras
  let loraV := getField fs "lora"
  let loras :=
    if loraV.truthy then
      let loraNameV : JValue :=
        match loraV with
        | .str s => .str (jsTrim s)
        | .obj _ | .arr _ =>
          let cand := JValue.jor (loraV.getProp "name")
            (JValue.jor (loraV.getProp "model") (loraV.getProp "key"))
          match cand with
          | .str s => .str s
          | _ =>
            let k := loraV.getProp "key"
            if k.truthy then k else .str ((jsonStringify loraV).getD "")
        | _ => .str ""
      match loraNameV with
      | .str s => if s ≠ "" && !loras.contains s then loras ++ [s] else loras
      | _ => loras
    else loras
  .ok (loras.filter (· ≠ ""))

/-- `extractLorasFromAutomatic1111`: the two angle-bracket tag patterns. -/
def extractLorasFromAutomatic1111 (params : String) : List String :=
  let d := params.data
  let l1 := addCaps [] (tagCaptures "<lora:".data d.length d)
  addCaps l1 (tagCaptures "<lyco:".data d.length d)

/-- `extractLorasFromComfyUI`: LoRA-style nodes of both graphs, wrapped in a
`catch` returning the list collected so far. -/
def extractLorasFromComfyUI (workflowV promptV : JValue) : List String :=
  let res : Except (List String) (List String) :=
    let wfE : Except (List String) JValue :=
      match workflowV with
      | .str s =>
        match jsonParse s with
        | some v => .ok v
        | none => .error []
      | v => .ok v
    wfE.bind fun workflow =>
    let prE : Except (List String) JValue :=
      match promptV with
      | .str s =>
        match jsonParse s with
        | some v => .ok v
        | none => .error []
      | v => .ok v
    prE.bind fun promptP =>
    let pushInputs : List String → JValue → List String := fun ls node =>
      let inp := node.getProp "inputs"
      if inp.truthy then
        (JValue.entries inp).foldl (fun ls p =>
          if jsIncludes (jsLower p.1) "lora_name" || jsIncludes (jsLower p.1) "lyco_name" then
            match p.2 with
            | .str s => if jsTrim s ≠ "" then ls ++ [jsTrim s] else ls
            | _ => ls
          else ls) ls
      else ls
    let stepW : List String → JValue → Except (List String) (List String) := fun ls node =>
      match node with
      | .jnull => .error ls
      | .jundefined => .error ls
      | _ =>
        let tv := node.getProp "type"
        let condE : Except (List String) Bool :=
          if tv.truthy then
            match tv with
            | .str s => .ok (jsIncludes (jsLower s) "lora" || jsIncludes (jsLower s) "lyco")
            | _ => .error ls
          else .ok false
        condE.bind fun cond =>
          if cond then
            let wv := node.getProp "widgets_values"
            let ls :=
              if wv.truthy && (match jLengthNum wv with
                  | .num q => decide (q > 0)
                  | _ => false) then
                match jIndex0 wv with
                | .str s => if jsTrim s ≠ "" then ls ++ [jsTrim s] else ls
                | _ => ls
              else ls
            .ok (pushInputs ls node)
          else .ok ls
    let wloop : Except (List String) (List String) :=
      if workflow.truthy && (workflow.getProp "nodes").truthy then
        match jIterate (workflow.getProp "nodes") with
        | .ok ns => foldExc stepW [] ns
        | .error _ => .error []
      else .ok []
    wloop.bind fun ls =>
    let stepP : List String → (String × JValue) → Except (List String) (List String) :=
      fun ls p =>
      let node := p.2
      match node with
      | .jnull => .error ls
      | .jundefined => .error ls
      | _ =>
        let tv := node.getProp "class_type"
        let condE : Except (List String) Bool :=
          if tv.truthy then
            match tv with
            | .str s => .ok (jsIncludes (jsLower s) "lora" || jsIncludes (jsLower s) "lyco")
            | _ => .error ls
          else .ok false
        condE.bind fun cond =>
          if cond then .ok (pushInputs ls node) else .ok ls
    if promptP.truthy then foldExc stepP ls (JValue.entries promptP)
    else .ok ls
  (runCatch res).filter (· ≠ "")

/-- `extractLorasFromRawMetadata`: candidate field names then a
workflow-node scan; exceptions propagate. -/
def extractLorasFromRawMetadata (fs : List (String × JValue)) : Except Unit (List String) :=
  let loras := ["loras", "lora", "lora_name", "lyco", "lyco_name"].foldl
    (fun ls f =>
      let v := getField fs f
      if v.truthy then
        match v with
        | .arr items =>
          ls ++ (items.filterMap fun l =>
            match l with
            | .str s => if jsTrim s ≠ "" then some s else none
            | _ => none)
        | .str s => ls ++ [jsTrim s]
        | _ => ls
      else ls) []
  let wf := getField fs "workflow"
  match wf with
  | .jundefined => .ok loras
  | .jnull => .ok loras
  | _ =>
    let nodes := wf.getProp "nodes"
    if nodes.truthy then
      match jIterate nodes with
      | .error _ => .error ()
      | .ok ns =>
        (foldExc (σ := List String) (fun ls node =>
          match node with
          | .jnull => .error ls
          | .jundefined => .error ls
          | _ =>
            let tv := node.getProp "class_type"
            if tv.truthy then
              match tv with
              | .str s =>
                if jsIncludes (jsLower s) "lora" || jsIncludes (jsLower s) "lyco" then
                  let inp := node.getProp "inputs"
                  let ln := match inp with
                    | .jnull => JValue.jundefined
                    | .jundefined => JValue.jundefined
                    | v => v.getProp "lora_name"
                  -- the raw value is pushed unconverted; non-string values are
                  -- modelled by their string coercion
                  if ln.truthy then .ok (ls ++ [jsToStr ln]) else .ok ls
                else .ok ls
              | _ => .error ls
            else .ok ls) loras ns).mapError (fun _ => ())
    else .ok loras

/-- `extractLoras`: normalized-cache fast path, then format dispatch. -/
def extractLoras (m : ImageMetadata) : Except Unit (List String) :=
  let dispatch : ImageMetadata → Except Unit (List String) := fun m =>
    match m with
    | .invokeai fs _ => extractLorasFromInvokeAI fs
    | .automatic1111 p _ => .ok (extractLorasFromAutomatic1111 p)
    | .comfyui w pr _ => .ok (extractLorasFromComfyUI w pr)
    | .unknown fs _ => extractLorasFromRawMetadata fs
  match getNM m with
  | some nm =>
    match nm.loras with
    | some l => .ok l
    | none => dispatch m
  | none => dispatch m

/-! ### Scheduler extraction -/

def extractSchedulerFromAutomatic1111 (params : String) : String :=
  match findCaptureCI "sampler:".data notCommaNl params.data with
  | some cap => jsTrim (String.mk cap)
  | none => "Unknown"

/-- `extractSchedulerFromComfyUI`: first sampler-type node of the execution
graph; any exception is caught and yields `"Unknown"`. -/
def extractSchedulerFromComfyUI (promptV : JValue) : String :=
  let res : Except Unit String :=
    let prE : Except Unit JValue :=
      match promptV with
      | .str s =>
        match jsonParse s with
        | some v => .ok v
        | none => .error ()
      | v => .ok v
    prE.bind fun promptP =>
    if promptP.truthy then
      let rec go : List (String × JValue) → Except Unit (Option String)
        | [] => .ok none
        | p :: rest =>
          let node := p.2
          match node with
          | .jnull => .error ()
          | .jundefined => .error ()
          | _ =>
            let tv := node.getProp "class_type"
            if tv.truthy then
              match tv with
              | .str s =>
                if jsIncludes (jsLower s) "sampler" then
                  let inp := node.getProp "inputs"
                  if inp.truthy then
                    let samplerName := JValue.jor (inp.getProp "sampler_name")
                      (inp.getProp "scheduler")
                    match samplerName with
                    | .str sn => if jsTrim sn ≠ "" then .ok (some (jsTrim sn)) else go rest
                    | _ => go rest
                  else go rest
                else go rest
              | _ => .error ()
            else go rest
      (go (JValue.entries promptP)).map fun r => r.getD "Unknown"
    else .ok "Unknown"
  match res with
  | .ok s => s
  | .error _ => "Unknown"

/-- `extractSchedulerFromRawMetadata`: candidate fields then a
workflow-node scan; exceptions propagate. -/
def extractSchedulerFromRawMetadata (fs : List (String × JValue)) : Except Unit String :=
  let fromFields := ["scheduler", "sampler", "sampler_name", "sampling_method"].foldl
    (fun acc f =>
      match acc with
      | some _ => acc
      | none =>
        match getField fs f with
        | .str s => if s ≠ "" then some (jsTrim s) else none
        | _ => none) none
  match fromFields with
  | some s => .ok s
  | none =>
    let wf := getField fs "workflow"
    match wf with
    | .jundefined => .ok "Unknown"
    | .jnull => .ok "Unknown"
    | _ =>
      let nodes := wf.getProp "nodes"
      if nodes.truthy then
        match jIterate nodes with
        | .error _ => .error ()
        | .ok ns =>
          let rec go : List JValue → Except Unit String
            | [] => .ok "Unknown"
            | node :: rest =>
              match node with
              | .jnull => .error ()
              | .jundefined => .error ()
              | _ =>
                let tv := node.getProp "class_type"
                if tv.truthy then
                  match tv with
                  | .str s =>
                    if jsIncludes (jsLower s) "sampler" then
                      let inp := node.getProp "inputs"
                      let sn := match inp with
                        | .jnull => JValue.jundefined
                        | .jundefined => JValue.jundefined
                        | v => v.getProp "sampler_name"
                      -- the raw value is returned unconverted; non-strings are
                      -- modelled by their string coercion
                      if sn.truthy then .ok (jsToStr sn) else go rest
                    else go rest
                  | _ => .error ()
                else go rest
          go ns
      else .ok "Unknown"

/-- `extractScheduler`: normalized-cache fast path, then format dispatch. -/
def extractScheduler (m : ImageMetadata) : Except Unit String :=
  let dispatch : ImageMetadata → Except Unit String := fun m =>
    match m with
    | .invokeai fs _ =>
      let v := getField fs "scheduler"
      -- `metadata.scheduler || 'Unknown'` returns the raw value; non-strings
      -- are modelled by their string coercion
      if v.truthy then .ok (jsToStr v) else .ok "Unknown"
    | .automatic1111 p _ => .ok (extractSchedulerFromAutomatic1111 p)
    | .comfyui _ pr _ => .ok (extractSchedulerFromComfyUI pr)
    | .unknown fs _ => extractSchedulerFromRawMetadata fs
  match getNM m with
  | some nm =>
    if nm.scheduler ≠ "" then .ok nm.scheduler else dispatch m
  | none => dispatch m

/-! ### Board extraction (threads the board-resolver state) -/

/-- `extractBoardFromWorkflow`: scan `workflow.nodes` for `l2i` /
`canvas_output` nodes carrying a `board.value.board_id` input; resolved ids
go through the friendly-name cache.  Iterating a non-iterable `nodes` or a
`null` node throws, which propagates to the caller. -/
def extractBoardFromWorkflow (workflow : JValue) (st : BoardState) :
    Except Unit (Option String × BoardState) :=
  if !workflow.truthy then .ok (none, st)
  else
    let nodes := workflow.getProp "nodes"
    if !nodes.truthy then .ok (none, st)
    else
      match jIterate nodes with
      | .error _ => .error ()
      | .ok ns =>
        let rec go : List JValue → BoardState → Except Unit (Option String × BoardState)
          | [], st => .ok (none, st)
          | node :: rest, st =>
            match node with
            | .jnull => .error ()
            | .jundefined => .error ()
            | _ =>
              let dv := node.getProp "data"
              if dv.truthy && (dv.getProp "type").truthy &&
                  (match dv.getProp "type" with
                   | .str s => decide (s = "l2i") || decide (s = "canvas_output")
                   | _ => false) then
                let iv := dv.getProp "inputs"
                if iv.truthy && (iv.getProp "board").truthy then
                  let bi := iv.getProp "board"
                  let bv := bi.getProp "value"
                  if bv.truthy && (bv.getProp "board_id").truthy then
                    -- the raw id value is used as the cache key; non-string
                    -- ids are modelled by their string coercion
                    let (name, st') := getFriendlyBoardName (jsToStr (bv.getProp "board_id")) st
                    .ok (some name, st')
                  else go rest st
                else go rest st
              else go rest st
        go ns st

/-- `extractBoardFromInvokeAI`: the ordered board-field cascade. -/
def extractBoardFromInvokeAI (fs : List (String × JValue)) (st : BoardState) :
    Except Unit (String × BoardState) :=
  let strField := fun (k : String) =>
    match getField fs k with
    | .str s => if s ≠ "" then some (jsTrim s) else none
    | _ => none
  match strField "board_name" with
  | some s => .ok (s, st)
  | none =>
  match strField "board_id" with
  | some s => .ok (s, st)
  | none =>
  match strField "boardName" with
  | some s => .ok (s, st)
  | none =>
  match strField "boardId" with
  | some s => .ok (s, st)
  | none =>
  match strField "Board Name" with
  | some s => .ok (s, st)
  | none =>
  let boardV := getField fs "board"
  let fromBoardObj : Option String :=
    match boardV with
    | .obj _ | .arr _ =>
      -- the raw `name`/`board_name`/`id` value is returned unconverted;
      -- non-strings are modelled by their string coercion
      if (boardV.getProp "name").truthy then some (jsToStr (boardV.getProp "name"))
      else if (boardV.getProp "board_name").truthy then
        some (jsToStr (boardV.getProp "board_name"))
      else if (boardV.getProp "id").truthy then some (jsToStr (boardV.getProp "id"))
      else none
    | _ => none
  match fromBoardObj with
  | some s => .ok (s, st)
  | none =>
  match boardV with
  | .str s =>
    if s ≠ "" then .ok (jsTrim s, st) else fallthroughCanvas fs st
  | _ => fallthroughCanvas fs st
where
  /-- The cascade from `canvas_v2_metadata` on. -/
  fallthroughCanvas (fs : List (String × JValue)) (st : BoardState) :
      Except Unit (String × BoardState) :=
    let canvasV := getField fs "canvas_v2_metadata"
    let canvasStep : Option (String × BoardState) :=
      match canvasV with
      | .obj _ | .arr _ =>
        if (canvasV.getProp "board_id").truthy then
          some (getFriendlyBoardName (jsToStr (canvasV.getProp "board_id")) st)
        else
          let bo := canvasV.getProp "board"
          match bo with
          | .obj _ | .arr _ =>
            if (bo.getProp "board_id").truthy then
              some (getFriendlyBoardName (jsToStr (bo.getProp "board_id")) st)
            else none
          | _ => none
      | _ => none
    match canvasStep with
    | some r => .ok r
    | none =>
      let wfV := getField fs "workflow"
      let wfStep : Except Unit (Option String × BoardState) :=
        match wfV with
        | .obj _ | .arr _ =>
          if wfV.truthy then extractBoardFromWorkflow wfV st else .ok (none, st)
        | _ => .ok (none, st)
      wfStep.bind fun r =>
        match r with
        | (some s, st') => .ok (s, st')
        | (none, st') =>
          let scan := fs.foldl (fun (acc : Option String) p =>
            match acc with
            | some _ => acc
            | none =>
              if jsIncludes (jsLower p.1) "board" then
                match p.2 with
                | .str s => if jsTrim s ≠ "" then some (jsTrim s) else none
                | _ => none
              else none) none
          match scan with
          | some s => .ok (s, st')
          | none => .ok ("Uncategorized", st')

/-- `extractBoard`: boards are an InvokeAI-only concept; every other format
yields `"Uncategorized"`.  (The normalized cache is never consulted.) -/
def extractBoard (m : ImageMetadata) (st : BoardState) : Except Unit (String × BoardState) :=
  match m with
  | .invokeai fs _ => extractBoardFromInvokeAI fs st
  | _ => .ok ("Uncategorized", st)

/-! ### Prompt extraction -/

/-- The ComfyUI section of `extractPrompt` (its own `try` block): first a
CLIP-text-encode node's text, then any node's `text` input.  A thrown
exception is reported as `.error` and the caller falls through. -/
def comfyScanPrompt (promptV : JValue) : Except Unit (Option String) :=
  let prE : Except Unit JValue :=
    match promptV with
    | .str s =>
      match jsonParse s with
      | some v => .ok v
      | none => .error ()
    | v => .ok v
  prE.bind fun promptP =>
  if promptP.truthy then
    let rec go1 : List (String × JValue) → Except Unit (Option String)
      | [] => .ok none
      | p :: rest =>
        let node := p.2
        match node with
        | .jnull => .error ()
        | .jundefined => .error ()
        | _ =>
          let tv := node.getProp "class_type"
          if tv.truthy then
            match tv with
            | .str s =>
              if jsIncludes (jsLower s) "text" && jsIncludes (jsLower s) "encode" then
                let inp := node.getProp "inputs"
                if inp.truthy && (inp.getProp "text").truthy then
                  match inp.getProp "text" with
                  | .str t => .ok (some (jsTrim t))
                  | _ => go1 rest
                else go1 rest
              else go1 rest
            | _ => .error ()
          else go1 rest
    let rec go2 : List (String × JValue) → Except Unit (Option String)
      | [] => .ok none
      | p :: rest =>
        let node := p.2
        match node with
        | .jnull => .error ()
        | .jundefined => .error ()
        | _ =>
          let inp := node.getProp "inputs"
          if inp.truthy && (inp.getProp "text").truthy then
            match inp.getProp "text" with
            | .str t => .ok (some (jsTrim t))
            | _ => go2 rest
          else go2 rest
    (go1 (JValue.entries promptP)).bind fun r1 =>
      match r1 with
      | some s => .ok (some s)
      | none => go2 (JValue.entries promptP)
  else .ok none

/-- The format-specific tail of `extractPrompt`. -/
def extractPromptFromFormat (m : ImageMetadata) : Except Unit String :=
  match m with
    | .invokeai fs _ =>
      let pos := getField fs "positive_prompt"
      if pos.truthy then
        -- string concatenation coerces non-string prompts
        let neg := getField fs "negative_prompt"
        .ok (if neg.truthy then jsToStr pos ++ " ### " ++ jsToStr neg else jsToStr pos)
      else
        match getField fs "prompt" with
        | .str s => .ok s
        | .arr xs =>
          ((xs.mapM (fun p =>
            (match p with
             | .str s => Except.ok s
             | .jnull => Except.ok ""
             | .jundefined => Except.ok ""
             | v =>
               -- `(p)?.prompt || ''`, then `.filter(p => p.trim())` throws
               -- on a non-string element
               let pv := v.getProp "prompt"
               if pv.truthy then
                 match pv with
                 | .str s => Except.ok s
                 | _ => Except.error ()
               else Except.ok "" : Except Unit String))).map fun parts =>
            String.intercalate " " (parts.filter (fun s => jsTrim s ≠ "")))
        | .jnull => .error ()
        | .obj _ =>
          let pv := (getField fs "prompt").getProp "prompt"
          if pv.truthy then .ok (jsToStr pv) else .ok ""
        | _ => .ok ""
    | .automatic1111 p _ =>
      match jsIndexOf p "\nNegative prompt:" with
      | some i => .ok (jsTrim (jsSubstring p 0 i))
      | none =>
        match firstParamLineIdx p with
        | some i => .ok (jsTrim (jsSubstring p 0 i))
        | none => .ok (jsTrim p)
    | .comfyui _ pr _ =>
      match comfyScanPrompt pr with
      | .ok (some s) => .ok s
      | _ => .ok ""
    | .unknown _ _ => .ok ""

/-- `extractPrompt`: cache, embedded-parameters fast path, then
format-specific extraction. -/
def extractPrompt (m : ImageMetadata) : Except Unit String :=
  match getNM m with
  | some nm =>
    if nm.prompt ≠ "" then .ok nm.prompt
    else
      match rawParams m with
      | .str s =>
        if s ≠ "" then
          let a := parseA1111Metadata s
          if a.prompt ≠ "" then .ok a.prompt else extractPromptFromFormat m
        else extractPromptFromFormat m
      | _ => extractPromptFromFormat m
  | none =>
    match rawParams m with
    | .str s =>
      if s ≠ "" then
        let a := parseA1111Metadata s
        if a.prompt ≠ "" then .ok a.prompt else extractPromptFromFormat m
      else extractPromptFromFormat m
    | _ => extractPromptFromFormat m

/-- `extractNegativePrompt`: only the normalized cache is consulted. -/
def extractNegativePrompt (m : ImageMetadata) : Option String :=
  match getNM m with
  | some nm => if nm.negativePrompt ≠ "" then some nm.negativePrompt else none
  | none => none

/-! ### Numeric field extraction -/

/-- `parseInt` applied to a dynamic value (number coercion truncates). -/
def jParseIntV : JValue → Option Rat
  | .num q => some (if q ≥ 0 then (q.floor : Rat) else (q.ceil : Rat))
  | v => jsParseInt (jsToStr v)

/-- `parseFloat` applied to a dynamic value. -/
def jParseFloatV : JValue → Option Rat
  | .num q => some q
  | v => jsParseFloat (jsToStr v)

/-- `extractCfgScale`: cache (a numeric `cfgScale`), embedded-parameters
fast path (truthy value), then format dispatch.  A non-numeric raw value
(returned unconverted in JavaScript) is modelled as absent. -/
def extractCfgScale (m : ImageMetadata) : Option Rat :=
  let fromFormat : ImageMetadata → Option Rat := fun m =>
    match m with
    | .invokeai fs _ =>
      match getField fs "cfg_scale" with
      | .num q => some q
      | _ => none
    | .automatic1111 p _ =>
      match findCaptureCI "cfg scale:".data (fun c => isDigitC c || c = '.') p.data with
      | some cap => jsParseFloat (String.mk cap)
      | none => none
    | .comfyui w _ _ =>
      let res : Except Unit (Option Rat) :=
        let wfE : Except Unit JValue :=
          match w with
          | .str s =>
            match jsonParse s with
            | some v => .ok v
            | none => .error ()
          | v => .ok v
        wfE.bind fun workflow =>
        if workflow.truthy then
          let rec go : List (String × JValue) → Except Unit (Option Rat)
            | [] => .ok none
            | p :: rest =>
              let node := p.2
              match node with
              | .jnull => .error ()
              | .jundefined => .error ()
              | _ =>
                if (match node.getProp "class_type" with
                    | .str s => decide (s = "KSampler")
                    | _ => false) then
                  let inp := node.getProp "inputs"
                  if inp.truthy && (inp.getProp "cfg").truthy then
                    match jParseFloatV (inp.getProp "cfg") with
                    | some q => .ok (some q)
                    | none => go rest
                  else go rest
                else go rest
          go (JValue.entries workflow)
        else .ok none
      match res with
      | .ok r => r
      | .error _ => none
    | .unknown _ _ => none
  match getNM m with
  | some nm =>
    match nm.cfgScale with
    | .num q => some q
    | _ => stepParams m fromFormat
  | none => stepParams m fromFormat
where
  /-- The embedded-parameters fast path shared with the format dispatch. -/
  stepParams (m : ImageMetadata) (fromFormat : ImageMetadata → Option Rat) : Option Rat :=
    match rawParams m with
    | .str s =>
      if s ≠ "" then
        let a := parseA1111Metadata s
        match a.cfgScale with
        | .num q => if q ≠ 0 then some q else fromFormat m
        | _ => fromFormat m
      else fromFormat m
    | _ => fromFormat m

/-- `extractSteps`: cache (a numeric `steps`), embedded-parameters fast path
(truthy value), then format dispatch. -/
def extractSteps (m : ImageMetadata) : Option Rat :=
  let fromFormat : ImageMetadata → Option Rat := fun m =>
    match m with
    | .invokeai fs _ =>
      match getField fs "steps" with
      | .num q => some q
      | _ => none
    | .automatic1111 p _ =>
      match findCaptureCI "steps:".data isDigitC p.data with
      | some cap => jsParseInt (String.mk cap)
      | none => none
    | .comfyui w _ _ =>
      let res : Except Unit (Option Rat) :=
        let wfE : Except Unit JValue :=
          match w with
          | .str s =>
            match jsonParse s with
            | some v => .ok v
            | none => .error ()
          | v => .ok v
        wfE.bind fun workflow =>
        if workflow.truthy then
          let rec go : List (String × JValue) → Except Unit (Option Rat)
            | [] => .ok none
            | p :: rest =>
              let node := p.2
              match node with
              | .jnull => .error ()
              | .jundefined => .error ()
              | _ =>
                if (match node.getProp "class_type" with
                    | .str s => decide (s = "KSampler")
                    | _ => false) then
                  let inp := node.getProp "inputs"
                  if inp.truthy && (inp.getProp "steps").truthy then
                    match jParseIntV (inp.getProp "steps") with
                    | some q => .ok (some q)
                    | none => go rest
                  else go rest
                else go rest
          go (JValue.entries workflow)
        else .ok none
      match res with
      | .ok r => r
      | .error _ => none
    | .unknown _ _ => none
  match getNM m with
  | some nm =>
    match nm.steps with
    | .num q => some q
    | _ => stepParams m fromFormat
  | none => stepParams m fromFormat
where
  stepParams (m : ImageMetadata) (fromFormat : ImageMetadata → Option Rat) : Option Rat :=
    match rawParams m with
    | .str s =>
      if s ≠ "" then
        let a := parseA1111Metadata s
        match a.steps with
        | .num q => if q ≠ 0 then some q else fromFormat m
        | _ => fromFormat m
      else fromFormat m
    | _ => fromFormat m

/-- `extractSeed`: cache (a numeric `seed`), embedded-parameters fast path
(truthy value), then format dispatch. -/
def extractSeed (m : ImageMetadata) : Option Rat :=
  let fromFormat : ImageMetadata → Option Rat := fun m =>
    match m with
    | .invokeai fs _ =>
      match getField fs "seed" with
      | .num q => some q
      | _ => none
    | .automatic1111 p _ =>
      match findCaptureCI "seed:".data isDigitC p.data with
      | some cap => jsParseInt (String.mk cap)
      | none => none
    | .comfyui w _ _ =>
      let res : Except Unit (Option Rat) :=
        let wfE : Except Unit JValue :=
          match w with
          | .str s =>
            match jsonParse s with
            | some v => .ok v
            | none => .error ()
          | v => .ok v
        wfE.bind fun workflow =>
        if workflow.truthy then
          let rec go : List (String × JValue) → Except Unit (Option Rat)
            | [] => .ok none
            | p :: rest =>
              let node := p.2
              match node with
              | .jnull => .error ()
              | .jundefined => .error ()
              | _ =>
                if (match node.getProp "class_type" with
                    | .str s => decide (s = "KSampler")
                    | _ => false) then
                  let inp := node.getProp "inputs"
                  if inp.truthy && (inp.getProp "seed").truthy then
                    match jParseIntV (inp.getProp "seed") with
                    | some q => .ok (some q)
                    | none => go rest
                  else go rest
                else go rest
          go (JValue.entries workflow)
        else .ok none
      match res with
      | .ok r => r
      | .error _ => none
    | .unknown _ _ => none
  match getNM m with
  | some nm =>
    match nm.seed with
    | .num q => some q
    | _ => stepParams m fromFormat
  | none => stepParams m fromFormat
where
  stepParams (m : ImageMetadata) (fromFormat : ImageMetadata → Option Rat) : Option Rat :=
    match rawParams m with
    | .str s =>
      if s ≠ "" then
        let a := parseA1111Metadata s
        match a.seed with
        | .num q => if q ≠ 0 then some q else fromFormat m
        | _ => fromFormat m
      else fromFormat m
    | _ => fromFormat m

/-- `extractDimensions`: cache width/height, embedded-parameters fast path,
then format dispatch; values are interpolated into a `"WxH"` template. -/
def extractDimensions (m : ImageMetadata) : Option String :=
  let fromFormat : ImageMetadata → Option String := fun m =>
    match m with
    | .invokeai fs _ =>
      let w := getField fs "width"
      let h := getField fs "height"
      if w.truthy && h.truthy then some (jsToStr w ++ "x" ++ jsToStr h) else none
    | .automatic1111 p _ =>
      match findSizeStr p.data with
      | some cap => some (String.mk cap)
      | none => none
    | .comfyui w _ _ =>
      let res : Except Unit (Option String) :=
        let wfE : Except Unit JValue :=
          match w with
          | .str s =>
            match jsonParse s with
            | some v => .ok v
            | none => .error ()
          | v => .ok v
        wfE.bind fun workflow =>
        if workflow.truthy then
          let rec go : List (String × JValue) → Except Unit (Option String)
            | [] => .ok none
            | p :: rest =>
              let node := p.2
              match node with
              | .jnull => .error ()
              | .jundefined => .error ()
              | _ =>
                if (match node.getProp "class_type" with
                    | .str s => decide (s = "EmptyLatentImage")
                    | _ => false) then
                  let inp := node.getProp "inputs"
                  if inp.truthy then
                    let wv := inp.getProp "width"
                    let hv := inp.getProp "height"
                    if wv.truthy && hv.truthy then
                      .ok (some (jsToStr wv ++ "x" ++ jsToStr hv))
                    else go rest
                  else go rest
                else go rest
          go (JValue.entries workflow)
        else .ok none
      match res with
      | .ok r => r
      | .error _ => none
    | .unknown _ _ => none
  match getNM m with
  | some nm =>
    if nm.width.truthy && nm.height.truthy then
      some (jsToStr nm.width ++ "x" ++ jsToStr nm.height)
    else stepParams m fromFormat
  | none => stepParams m fromFormat
where
  stepParams (m : ImageMetadata) (fromFormat : ImageMetadata → Option String) :
      Option String :=
    match rawParams m with
    | .str s =>
      if s ≠ "" then
        let a := parseA1111Metadata s
        if a.width.truthy && a.height.truthy then
          some (jsToStr a.width ++ "x" ++ jsToStr a.height)
        else fromFormat m
      else fromFormat m
    | _ => fromFormat m

/-! ### ComfyUI graph normalization -/

/-- The `result` literal of `parseComfyUIMetadata`. -/
def comfyDefault : BaseMetadata :=
  { prompt := "", model := "", width := .num 0, height := .num 0, steps := .num 0,
    scheduler := "", models := some [], loras := some [], board := "",
    negativePrompt := "", cfgScale := .num 0, seed := .jundefined }

/-- The sampler-node test shared by the debug check and the sampler pass. -/
def ctIsSampler (ct : String) : Bool :=
  jsIncludes (jsLower ct) "sampler" ||
  ct = "KSampler" || ct = "SamplerCustom" || ct = "Sampler" ||
  ct = "SamplerEuler" || ct = "SamplerEulerAncestral" ||
  ct = "SamplerDPMPP2M" || ct = "SamplerDPMPP2MKarras" ||
  ct = "SamplerDPMAdaptive" || ct = "SamplerLMS" || ct = "SamplerHeun" ||
  ct = "SamplerDPM2" || ct = "SamplerDPM2Ancestral" || ct = "SamplerUniPC" ||
  ct = "SamplerTCD" || ct = "SamplerLCM" ||
  jsIncludes (jsLower ct) "ksampler" || jsIncludes (jsLower ct) "sample"

/-- `steps === 0`-style test on a stored dynamic value. -/
def isNumZero : JValue → Bool
  | .num q => q == 0
  | _ => false

def isUndefinedJ : JValue → Bool
  | .jundefined => true
  | _ => false

/-- One node of the main extraction loop of `parseComfyUIMetadata`
(checkpoint, LoRA, text-encode, sampler, seed and size passes, in source
order).  A non-object node is skipped; a truthy non-string
`class_type`/`type` throws at its first `.toLowerCase()`. -/
def comfyStep (r : BaseMetadata) (p : String × JValue) : Except BaseMetadata BaseMetadata :=
  let node := p.2
  match node with
  | .obj _ | .arr _ =>
    let ctv := JValue.jor (node.getProp "class_type")
      (JValue.jor (node.getProp "type") (.str ""))
    match ctv with
    | .str ct =>
      let inputs := JValue.jor (node.getProp "inputs") (.obj [])
      -- checkpoint loaders
      let r :=
        if jsIncludes (jsLower ct) "checkpoint" || jsIncludes (jsLower ct) "model" ||
            ct = "CheckpointLoaderSimple" || ct = "CheckpointLoader" then
          let ckptName := JValue.jor (inputs.getProp "ckpt_name")
            (JValue.jor (inputs.getProp "checkpoint") (inputs.getProp "model_name"))
          match ckptName with
          | .str s =>
            if s ≠ "" then { r with models := some ((r.models.getD []) ++ [s]) } else r
          | _ => r
        else r
      -- LoRA loaders
      let r :=
        if jsIncludes (jsLower ct) "lora" || ct = "LoraLoader" ||
            ct = "LoraLoaderModelOnly" || ct = "LoraLoaderModel" then
          let loraName := JValue.jor (inputs.getProp "lora_name")
            (JValue.jor (inputs.getProp "lora") (inputs.getProp "name"))
          match loraName with
          | .str s =>
            if s ≠ "" then { r with loras := some ((r.loras.getD []) ++ [s]) } else r
          | _ => r
        else r
      -- CLIP text encode
      let r :=
        if jsIncludes (jsLower ct) "clip" && jsIncludes (jsLower ct) "text" &&
            (jsIncludes (jsLower ct) "encode" || ct = "CLIPTextEncode" ||
             ct = "CLIPTextEncodeSDXL") then
          let text := JValue.jor (inputs.getProp "text")
            (JValue.jor (inputs.getProp "prompt") (inputs.getProp "string"))
          match text with
          | .str s =>
            if s ≠ "" then
              if isNegativeTextPrimary s && r.negativePrompt = "" then
                { r with negativePrompt := s }
              else if !isNegativeTextPrimary s && r.prompt = "" then
                { r with prompt := s }
              else r
            else r
          | _ => r
        else r
      -- sampler parameters
      let r :=
        if ctIsSampler ct then
          let steps := JValue.jor (inputs.getProp "steps")
            (JValue.jor (inputs.getProp "step_count")
              (JValue.jor (inputs.getProp "num_steps") (inputs.getProp "steps_count")))
          let cfg := JValue.jor (inputs.getProp "cfg")
            (JValue.jor (inputs.getProp "cfg_scale")
              (JValue.jor (inputs.getProp "guidance_scale")
                (JValue.jor (inputs.getProp "scale")
                  (JValue.jor (inputs.getProp "guidance") (inputs.getProp "cfg_value")))))
          let seed := JValue.jor (inputs.getProp "seed")
            (JValue.jor (inputs.getProp "noise_seed") (inputs.getProp "seed_value"))
          let samplerName := JValue.jor (inputs.getProp "sampler_name")
            (JValue.jor (inputs.getProp "sampler")
              (JValue.jor (inputs.getProp "sampling_method") (inputs.getProp "method")))
          let r :=
            match steps with
            | .str s =>
              match jsParseInt s with
              | some v => if v > 0 then { r with steps := .num v } else r
              | none => r
            | .num q => if q > 0 then { r with steps := .num q } else r
            | _ => r
          let r :=
            match cfg with
            | .str s =>
              match jsParseFloat s with
              | some v => if v > 0 then { r with cfgScale := .num v } else r
              | none => r
            | .num q => if q > 0 then { r with cfgScale := .num q } else r
            | _ => r
          let r :=
            match seed with
            | .jundefined => r
            | .jnull => r
            | .arr _ => r   -- node-reference seeds are recognized and skipped
            | .str s =>
              match jsParseInt s with
              | some v => if v ≥ 0 then { r with seed := .num v } else r
              | none => r
            | .num q => if q ≥ 0 then { r with seed := .num q } else r
            | _ => r
          let r :=
            match samplerName with
            | .str s => if s ≠ "" then { r with scheduler := s } else schedFallback r inputs
            | _ => schedFallback r inputs
          r
        else r
      -- seed-only nodes
      let r :=
        if jsIncludes (jsLower ct) "seed" || ct = "Seed Everywhere" || ct = "Random Seed" then
          match (JValue.entries inputs).find? (fun q =>
              jsIncludes (jsLower q.1) "seed" &&
              (match q.2 with
               | .num v => decide (v > 0)
               | _ => false) && !r.seed.truthy) with
          | some q =>
            match q.2 with
            | .num v => { r with seed := .num v }
            | _ => r
          | none => r
        else r
      -- size nodes
      let r :=
        if jsIncludes (jsLower ct) "latent" || ct = "EmptyLatentImage" ||
            ct = "LatentFromPrompt" || ct = "EmptyImage" || ct = "ImageSize" ||
            ct = "LatentUpscale" || ct = "LatentDownscale" ||
            jsIncludes (jsLower ct) "image" || jsIncludes (jsLower ct) "size" ||
            jsIncludes (jsLower ct) "dimension" then
          let wv := JValue.jor (inputs.getProp "width")
            (JValue.jor (inputs.getProp "image_width")
              (JValue.jor (inputs.getProp "size_width")
                (JValue.jor (inputs.getProp "w") (inputs.getProp "x"))))
          let hv := JValue.jor (inputs.getProp "height")
            (JValue.jor (inputs.getProp "image_height")
              (JValue.jor (inputs.getProp "size_height")
                (JValue.jor (inputs.getProp "h") (inputs.getProp "y"))))
          let r := match wv with
            | .num q => if q > 0 then { r with width := .num q } else r
            | _ => r
          match hv with
          | .num q => if q > 0 then { r with height := .num q } else r
          | _ => r
        else r
      .ok r
    | v => if v.truthy then .error r else .ok r
  | _ => .ok r
where
  /-- `else if (inputs.scheduler ...)`. -/
  schedFallback (r : BaseMetadata) (inputs : JValue) : BaseMetadata :=
    match inputs.getProp "scheduler" with
    | .str s => if s ≠ "" then { r with scheduler := s } else r
    | _ => r

/-- Fallback text pass of `parseComfyUIMetadata`. -/
def comfyTextFallback (r : BaseMetadata) (p : String × JValue) :
    Except BaseMetadata BaseMetadata :=
  let node := p.2
  match node with
  | .jnull => .error r
  | .jundefined => .error r
  | _ =>
    let inputs := JValue.jor (node.getProp "inputs") (.obj [])
    match inputs.getProp "text" with
    | .str s =>
      if s ≠ "" then
        if isNegativeTextFallback s then
          if r.negativePrompt = "" then .ok { r with negativePrompt := s } else .ok r
        else
          if r.prompt = "" then .ok { r with prompt := s } else .ok r
      else .ok r
    | _ => .ok r

/-- Numeric-parameter fallback pass of `parseComfyUIMetadata`. -/
def comfyNumFallback (r : BaseMetadata) (p : String × JValue) :
    Except BaseMetadata BaseMetadata :=
  let node := p.2
  match node with
  | .jnull => .error r
  | .jundefined => .error r
  | _ =>
    let inputs := JValue.jor (node.getProp "inputs") (.obj [])
    let possibleSteps := JValue.jor (inputs.getProp "steps")
      (JValue.jor (inputs.getProp "step_count")
        (JValue.jor (inputs.getProp "num_steps")
          (JValue.jor (inputs.getProp "steps_count")
            (JValue.jor (inputs.getProp "step") (inputs.getProp "n_steps")))))
    let possibleCfg := JValue.jor (inputs.getProp "cfg")
      (JValue.jor (inputs.getProp "cfg_scale")
        (JValue.jor (inputs.getProp "guidance_scale")
          (JValue.jor (inputs.getProp "scale")
            (JValue.jor (inputs.getProp "guidance")
              (JValue.jor (inputs.getProp "cfg_value") (inputs.getProp "strength"))))))
    let possibleSeed := JValue.jor (inputs.getProp "seed")
      (JValue.jor (inputs.getProp "noise_seed")
        (JValue.jor (inputs.getProp "seed_value") (inputs.getProp "random_seed")))
    let r :=
      match possibleSteps with
      | .str s =>
        match jsParseInt s with
        | some v => if v > 0 && v < 200 && isNumZero r.steps then { r with steps := .num v } else r
        | none => r
      | .num q => if q > 0 && q < 200 && isNumZero r.steps then { r with steps := .num q } else r
      | _ => r
    let r :=
      match possibleCfg with
      | .str s =>
        match jsParseFloat s with
        | some v =>
          if v > 0 && v < 50 && isNumZero r.cfgScale then { r with cfgScale := .num v } else r
        | none => r
      | .num q =>
        if q > 0 && q < 50 && isNumZero r.cfgScale then { r with cfgScale := .num q } else r
      | _ => r
    let r :=
      match possibleSeed with
      | .jundefined => r
      | .jnull => r
      | v =>
        if isUndefinedJ r.seed then
          -- string values are parsed; numbers are used directly; exotic
          -- coercions (arrays, booleans) are not modelled
          let sv : Option Rat :=
            match v with
            | .str s => jsParseInt s
            | .num q => some q
            | _ => none
          match sv with
          | some q => if q ≥ 0 then { r with seed := .num q } else r
          | none => r
        else r
    .ok r

/-- Final comprehensive key-name scan of `parseComfyUIMetadata`. -/
def comfyKeyScan (r : BaseMetadata) (p : String × JValue) :
    Except BaseMetadata BaseMetadata :=
  let node := p.2
  match node with
  | .jnull => .error r
  | .jundefined => .error r
  | _ =>
    let inputs := JValue.jor (node.getProp "inputs") (.obj [])
    let step := fun (r : BaseMetadata) (q : String × JValue) =>
      let k := jsLower q.1
      let value := q.2
      let r :=
        if (jsIncludes k "step" || k = "steps" || k = "n_steps") && isNumZero r.steps then
          match value with
          | .num v => if v > 0 && v < 200 then { r with steps := .num v } else r
          | .str s =>
            match jsParseInt s with
            | some v => if v > 0 && v < 200 then { r with steps := .num v } else r
            | none => r
          | _ => r
        else r
      let r :=
        if (jsIncludes k "cfg" || jsIncludes k "guidance" || k = "scale" || k = "strength") &&
            isNumZero r.cfgScale then
          match value with
          | .num v => if v > 0 && v < 50 then { r with cfgScale := .num v } else r
          | .str s =>
            match jsParseFloat s with
            | some v => if v > 0 && v < 50 then { r with cfgScale := .num v } else r
            | none => r
          | _ => r
        else r
      let r :=
        if (jsIncludes k "seed" || k = "noise_seed") && isUndefinedJ r.seed then
          match value with
          | .num v => if v ≥ 0 then { r with seed := .num v } else r
          | .str s =>
            match jsParseInt s with
            | some v => if v ≥ 0 then { r with seed := .num v } else r
            | none => r
          | _ => r
        else r
      r
    .ok ((JValue.entries inputs).foldl step r)

/-- `parseComfyUIMetadata`: decode the graphs, prefer the execution graph,
then run the targeted passes and fallbacks; the whole body is wrapped in a
`catch` that returns the result accumulated so far. -/
def parseComfyUIMetadata (workflowV promptV : JValue) : BaseMetadata :=
  let r0 := comfyDefault
  let wfO : Option JValue :=
    match workflowV with
    | .str s => jsonParse s
    | v => some v
  match wfO with
  | none => r0
  | some workflow =>
    let prO : Option JValue :=
      match promptV with
      | .str s => jsonParse s
      | v => some v
    match prO with
    | none => r0
    | some promptP =>
      let dataSource := JValue.jor promptP workflow
      if !dataSource.truthy then r0
      else
        let es := JValue.entries dataSource
        -- the node-type survey loop dereferences `node.class_type` on every
        -- entry before any extraction, so a null node aborts with the
        -- untouched defaults
        if es.any (fun p => match p.2 with | .jnull => true | .jundefined => true | _ => false) then
          r0
        else
          let body : Except BaseMetadata BaseMetadata :=
            (foldExc comfyStep r0 es).bind fun r =>
            (if r.prompt = "" && r.negativePrompt = "" then
              foldExc comfyTextFallback r es
            else .ok r).bind fun r =>
            (if (isNumZero r.steps || isNumZero r.cfgScale) && !r.seed.truthy then
              foldExc comfyNumFallback r es
            else .ok r).bind fun r =>
            (foldExc comfyKeyScan r es).bind fun r =>
            .ok (match r.models with
              | some (m0 :: _) => { r with model := m0 }
              | _ => r)
          runCatch body

/-! ### InvokeAI normalization -/

/-- The `result` literal of `parseInvokeAIMetadata`. -/
def invokeDefault : BaseMetadata :=
  { format := some "InvokeAI", prompt := "", model := "", width := .num 0,
    height := .num 0, steps := .num 0, scheduler := "", negativePrompt := "",
    cfgScale := .num 0, seed := .jundefined, models := some [], loras := some [] }

/-- `parseInvokeAIMetadata`: field-by-field projection of the raw InvokeAI
object; its `try` returns the partially filled record on an exception. -/
def parseInvokeAIMetadata (fs : List (String × JValue)) : BaseMetadata :=
  let r := invokeDefault
  let body : Except BaseMetadata BaseMetadata :=
    -- positive prompt
    let step1 : Except BaseMetadata BaseMetadata :=
      match getField fs "positive_prompt" with
      | .str s => .ok { r with prompt := s }
      | _ =>
        match getField fs "prompt" with
        | .str s => .ok { r with prompt := s }
        | .arr xs =>
          ((xs.mapM (fun p =>
            (match p with
             | .str s => Except.ok s
             | .jnull => Except.error ()
             | .jundefined => Except.error ()
             | v =>
               let pv := v.getProp "prompt"
               if pv.truthy then
                 match pv with
                 | .str s => Except.ok s
                 | _ => Except.error ()
               else Except.ok "" : Except Unit String))).map (fun parts =>
             { r with prompt :=
                 String.intercalate " " (parts.filter (fun s => jsTrim s ≠ "")) })).mapError
           fun _ => r
        | _ => .ok r
    step1.bind fun r =>
    let r := match getField fs "negative_prompt" with
      | .str s => { r with negativePrompt := s }
      | _ => r
    -- core fields are copied raw when truthy; string-typed targets are
    -- modelled by string coercion
    let r := if (getField fs "model_name").truthy then
        { r with model := jsToStr (getField fs "model_name") } else r
    let r := if (getField fs "width").truthy then { r with width := getField fs "width" } else r
    let r := if (getField fs "height").truthy then
        { r with height := getField fs "height" } else r
    let r := if (getField fs "steps").truthy then { r with steps := getField fs "steps" } else r
    let r := if (getField fs "scheduler").truthy then
        { r with scheduler := jsToStr (getField fs "scheduler") } else r
    let r := if (getField fs "cfg_scale").truthy then
        { r with cfgScale := getField fs "cfg_scale" } else r
    let r := if (getField fs "seed").truthy then { r with seed := getField fs "seed" } else r
    let r := { r with models := some (extractModelsFromInvokeAI fs none) }
    (match extractLorasFromInvokeAI fs with
     | .ok ls => Except.ok { r with loras := some ls }
     | .error _ => Except.error r).bind fun r =>
    .ok (match r.models with
      | some (m0 :: _) => { r with model := m0 }
      | _ => r)
  runCatch body

/-! ### Container decoding and classification -/

structure ChunkSet where
  invokeai_metadata : Option String := none
  parameters : Option String := none
  workflow : Option String := none
  prompt : Option String := none

/-- Truthiness of a chunk entry (`undefined` or the empty string are falsy). -/
def truthyS : Option String → Bool
  | some s => s ≠ ""
  | none => false

/-- `DataView.getUint32` (big-endian): out-of-bounds access throws a
`RangeError`. -/
def getUint32 (buffer : List Nat) (offset : Nat) : Except Unit Nat :=
  if offset + 4 ≤ buffer.length then
    .ok ((((buffer.getD offset 0) * 256 + buffer.getD (offset + 1) 0) * 256 +
      buffer.getD (offset + 2) 0) * 256 + buffer.getD (offset + 3) 0)
  else .error ()

/-- `DataView.getUint16` (big-endian). -/
def getUint16 (buffer : List Nat) (offset : Nat) : Except Unit Nat :=
  if offset + 2 ≤ buffer.length then
    .ok ((buffer.getD offset 0) * 256 + buffer.getD (offset + 1) 0)
  else .error ()

/-- `buffer.slice(a, b)` (clamped, never throws). -/
def sliceBytes (buffer : List Nat) (a b : Nat) : List Nat := (buffer.take b).drop a

/-- Model of `TextDecoder.decode`, exact on ASCII (the only chunk content the
recognition logic inspects byte-for-byte). -/
def decodeBytes (bs : List Nat) : String := String.mk (bs.map Char.ofNat)

/-- `chunkString.split('\x00')` destructured to its first two parts. -/
def splitNul (s : String) : String × Option String :=
  match s.data.splitOn '\x00' with
  | [] => ("", none)
  | k :: rest => (String.mk k, rest.head?.map String.mk)

def setChunk (c : ChunkSet) (keyword text : String) : ChunkSet :=
  if keyword = "invokeai_metadata" then { c with invokeai_metadata := some text }
  else if keyword = "parameters" then { c with parameters := some text }
  else if keyword = "workflow" then { c with workflow := some text }
  else if keyword = "prompt" then { c with prompt := some text }
  else c

/-- The PNG chunk loop: 4-byte big-endian length, 4-byte type, data, CRC;
collect recognized non-empty `tEXt` entries; stop at `IEND` or the end of
the buffer.  Reading a chunk header past the end of the buffer throws
(`getUint32` RangeError).  The fuel provided by `scanChunks` exceeds the
possible iteration count (each step advances the offset by at least 12). -/
def scanChunksAux (buffer : List Nat) : Nat → Nat → ChunkSet → Except Unit ChunkSet
  | 0, _, acc => .ok acc
  | fuel + 1, offset, acc =>
    if offset < buffer.length then
      match getUint32 buffer offset with
      | .error e => .error e
      | .ok length =>
        let type := decodeBytes (sliceBytes buffer (offset + 4) (offset + 8))
        let acc :=
          if type = "tEXt" then
            let chunkString := decodeBytes (sliceBytes buffer (offset + 8) (offset + 8 + length))
            let (keyword, textO) := splitNul chunkString
            match textO with
            | some text =>
              if (keyword = "invokeai_metadata" || keyword = "parameters" ||
                  keyword = "workflow" || keyword = "prompt") && text ≠ "" then
                setChunk acc keyword text
              else acc
            | none => acc
          else acc
        if type = "IEND" then .ok acc
        else scanChunksAux buffer fuel (offset + 12 + length) acc
    else .ok acc

def scanChunks (buffer : List Nat) : Except Unit ChunkSet :=
  scanChunksAux buffer (buffer.length + 1) 8 {}

/-- The classification cascade of `parsePNGMetadata` over the collected
chunks: `workflow` → ComfyUI, `invokeai_metadata` → InvokeAI (the JSON parse
is unguarded: invalid JSON throws), `parameters` → Automatic1111,
`prompt` → ComfyUI prompt-only, otherwise no metadata. -/
def classifyChunks (c : ChunkSet) : Except Unit (Option ImageMetadata) :=
  if truthyS c.workflow then
    let w := c.workflow.getD ""
    let workflowData : JValue :=
      match jsonParse w with
      | some v => v
      | none => .str w
    let promptData : JValue :=
      if truthyS c.prompt then
        match jsonParse (c.prompt.getD "") with
        | some v => v
        | none => .str (c.prompt.getD "")
      else .jnull
    .ok (some (.comfyui workflowData promptData
      (some (parseComfyUIMetadata workflowData promptData))))
  else if truthyS c.invokeai_metadata then
    match jsonParse (c.invokeai_metadata.getD "") with
    | none => .error ()
    | some v =>
      match v with
      | .obj fields => .ok (some (.invokeai fields (some (parseInvokeAIMetadata fields))))
      | _ =>
        -- a non-object JSON.parse result is returned as the metadata in JS
        -- (the normalization assignment fails inside its catch) and makes
        -- every extractor throw at its first property test; the model
        -- collapses it to an empty raw object, a corner no theorem uses
        .ok (some (.unknown [] none))
  else if truthyS c.parameters then
    let p := c.parameters.getD ""
    .ok (some (.automatic1111 p (some (parseA1111Metadata p))))
  else if truthyS c.prompt then
    let pd : JValue :=
      match jsonParse (c.prompt.getD "") with
      | some v => v
      | none => .str (c.prompt.getD "")
    .ok (some (.comfyui .jundefined pd (some (parseComfyUIMetadata .jundefined pd))))
  else .ok none

/-- `parsePNGMetadata`: chunk scan then classification; exceptions from
either stage reject the returned promise. -/
def parsePNGMetadata (buffer : List Nat) : Except Unit (Option ImageMetadata) :=
  (scanChunks buffer).bind classifyChunks

/-- `parseJPEGMetadata`, parameterized by the structured EXIF decode (the
external `exifr` library): pick the first populated text field in priority
order, JSON-parse it speculatively, and fall back to the Automatic1111
grammar.  Modelled from the spec: `isInvokeAIMetadata` (types module, not
under `src/`) accepts the successfully JSON-parsed object (spec §4.2:
"success ⇒ InvokeAI variant").  The whole body never rejects. -/
def parseJPEGMetadata (exifData : Option (List (String × JValue))) :
    Option ImageMetadata :=
  let fieldsToCheck := ["userComment", "imageDescription", "description",
    "xpComment", "xpTitle"]
  let metadataText : Option String :=
    match exifData with
    | none => none
    | some fields =>
      fieldsToCheck.foldl (fun acc f =>
        match acc with
        | some _ => acc
        | none =>
          match getField fields f with
          | .str s => if s ≠ "" && jsTrim s ≠ "" then some (jsTrim s) else none
          | _ => none) none
  match metadataText with
  | none => none
  | some t =>
    match jsonParse t with
    | some (.obj fields) => some (.invokeai fields (some (parseInvokeAIMetadata fields)))
    | some _ =>
      -- a non-object JSON value is returned without normalization; see the
      -- note in `classifyChunks`
      some (.unknown [] none)
    | none => some (.automatic1111 t (some (parseA1111Metadata t)))

/-- `parseImageMetadata`: signature dispatch inside a `try`/`catch` that
returns `null` on a synchronous throw.  The PNG branch returns the
`parsePNGMetadata` promise without `await`, so a rejection from it bypasses
the `catch` and reaches the caller (`.error`); the JPEG branch never
rejects. -/
def parseImageMetadata (exifDecode : List Nat → Option (List (String × JValue)))
    (buffer : List Nat) : Except Unit (Option ImageMetadata) :=
  let jpegStep : Except Unit (Option ImageMetadata) :=
    match getUint16 buffer 0 with
    | .error _ => .ok none
    | .ok v =>
      if v = 0xFFD8 then .ok (parseJPEGMetadata (exifDecode buffer)) else .ok none
  match getUint32 buffer 0 with
  | .error _ => .ok none
  | .ok u0 =>
    if u0 = 0x89504E47 then
      match getUint32 buffer 4 with
      | .error _ => .ok none
      | .ok u4 =>
        if u4 = 0x0D0A1A0A then parsePNGMetadata buffer
        else jpegStep
    else jpegStep

/-! ### Concrete input builders for the theorems -/

def strBytes (s : String) : List Nat := s.data.map Char.toNat

def u32be (n : Nat) : List Nat :=
  [n / 16777216 % 256, n / 65536 % 256, n / 256 % 256, n % 256]

/-- The PNG signature `89 50 4E 47 0D 0A 1A 0A`. -/
def pngSig : List Nat := [0x89, 0x50, 0x4E, 0x47, 0x0D, 0x0A, 0x1A, 0x0A]

/-- A well-formed `tEXt` chunk with the given keyword and text. -/
def mkTextChunk (keyword text : String) : List Nat :=
  let dat := strBytes keyword ++ [0] ++ strBytes text
  u32be dat.length ++ strBytes "tEXt" ++ dat ++ [0, 0, 0, 0]

def iendChunk : List Nat := u32be 0 ++ strBytes "IEND" ++ [0, 0, 0, 0]

/-- An EXIF decode yielding no fields (buffers in the theorems are PNGs, so
this argument is never consulted). -/
def noExif : List Nat → Option (List (String × JValue)) := fun _ => none

/-- Does a classification result hold a ComfyUI variant? -/
def isComfyUIResult : Except Unit (Option ImageMetadata) → Bool
  | .ok (some (.comfyui _ _ _)) => true
  | _ => false

/-- Replace the attached normalized cache of a variant. -/
def setNM : ImageMetadata → Option BaseMetadata → ImageMetadata
  | .invokeai fs _, nm => .invokeai fs nm
  | .automatic1111 p _, nm => .automatic1111 p nm
  | .comfyui w pr _, nm => .comfyui w pr nm
  | .unknown fs _, nm => .unknown fs nm

/-- Resolve a batch of board ids in order, returning the assigned names. -/
def runBoards : List String → BoardState → List String × BoardState
  | [], st => ([], st)
  | id :: ids, st =>
    let p := getFriendlyBoardName id st
    let rest := runBoards ids p.2
    (p.1 :: rest.1, rest.2)

def boardLookup (st : BoardState) (id : String) : Option String :=
  (st.cache.find? (fun p => p.1 = id)).map Prod.snd

end ImgMeta

namespace ImgMeta

/-! ## Claim C1 -/

/-- A 9-byte file: the PNG signature plus a single stray byte.  The chunk
loop enters with `offset = 8 < 9` and `getUint32` reads past the buffer. -/
def truncatedPng : List Nat := pngSig ++ [0]

/-- C1, failing input: `parseImageMetadata` promises to never throw or
reject, but on a truncated PNG the chunk scanner's `DataView.getUint32`
throws a `RangeError`, and because the PNG branch returns the
`parsePNGMetadata` promise without `await`, the rejection bypasses the
`try`/`catch` and reaches the caller. -/
theorem parseImageMetadata_rejects_truncated_png :
    parseImageMetadata noExif truncatedPng = .error () := by
  rfl

/-! ## Claim C3 -/

/-- A PNG carrying a malformed (non-JSON) `invokeai_metadata` chunk and a
well-formed `parameters` chunk. -/
def malformedInvokePng : List Nat :=
  pngSig ++ mkTextChunk "invokeai_metadata" "x" ++
  mkTextChunk "parameters" "a cat" ++ iendChunk

/-- C3, counterexample: with a malformed `invokeai_metadata` chunk next to a
`parameters` chunk, parsing does NOT fall through to an Automatic1111
record — the unguarded `JSON.parse` in the InvokeAI branch throws and the
whole parse rejects. -/
theorem malformed_invokeai_does_not_fall_through :
    parsePNGMetadata malformedInvokePng = .error () ∧
    parseImageMetadata noExif malformedInvokePng = .error () := by
  constructor <;> rfl

/-- C3, amended: classification treats a malformed `invokeai_metadata`
source as fatal, not absent: whenever `workflow` is absent,
`invokeai_metadata` is present and its text is not valid JSON, the
classifier throws (and in particular never reaches the `parameters`
tier). -/
theorem classify_throws_on_malformed_invokeai (c : ChunkSet) (s : String)
    (hw : truthyS c.workflow = false) (hi : c.invokeai_metadata = some s)
    (hs : s ≠ "") (hj : jsonParse s = none) :
    classifyChunks c = .error () := by
  unfold classifyChunks
  rw [hw, hi]
  simp [truthyS, hs, hj]

/-- C3's amended-claim witness at a concrete chunk set. -/
theorem classify_throws_on_malformed_invokeai_witness :
    classifyChunks { invokeai_metadata := some "x", parameters := some "a cat" } =
      .error () :=
  classify_throws_on_malformed_invokeai _ "x" rfl rfl (by decide) rfl

/-! ## Claim C4 -/

/-- C4: whenever the collected chunks contain a (non-empty) `workflow`
entry, classification yields the ComfyUI variant, regardless of any
`invokeai_metadata` or `parameters` entries. -/
theorem workflow_chunk_always_comfyui (c : ChunkSet) (w : String)
    (hw : c.workflow = some w) (hne : w ≠ "") :
    isComfyUIResult (classifyChunks c) = true := by
  unfold classifyChunks
  rw [hw]
  simp [truthyS, hne, isComfyUIResult]

/-- C4 witness: a chunk set holding `workflow`, `invokeai_metadata` and
`parameters` together classifies as ComfyUI. -/
theorem workflow_chunk_always_comfyui_witness :
    isComfyUIResult (classifyChunks
      { workflow := some "w", invokeai_metadata := some "x",
        parameters := some "a cat" }) = true :=
  workflow_chunk_always_comfyui _ "w" rfl (by decide)

/-! ## Claim C8 -/

/-- C8, counterexample: the two negative-prompt predicates are not equal —
the text `"negative"` is classified negative by the primary text-encode
pass but positive by the fallback scan (whose denylist omits the
`negative` keyword). -/
theorem negative_predicates_differ :
    isNegativeTextPrimary "negative" = true ∧
    isNegativeTextFallback "negative" = false := by
  constructor <;> rfl

/-- C8, amended: the fallback denylist is the primary denylist without the
`negative` keyword, so the two predicates coincide exactly on texts that do
not contain `negative` as a case-insensitive substring. -/
theorem negative_predicates_agree_without_negative_kw (t : String)
    (h : jsIncludes (jsLower t) "negative" = false) :
    isNegativeTextPrimary t = isNegativeTextFallback t := by
  simp [isNegativeTextPrimary, isNegativeTextFallback, h]

/-- C8's amended-claim witness at a concrete text. -/
theorem negative_predicates_agree_witness :
    isNegativeTextPrimary "a blurry photo" = isNegativeTextFallback "a blurry photo" :=
  negative_predicates_agree_without_negative_kw "a blurry photo" (by decide)

/-! ## Claim C7 -/

def scenario1Params : String :=
  "a cat\nNegative prompt: blurry\nSteps: 20, Sampler: Euler a, CFG scale: 7.5, Seed: 42, Size: 512x768, Model: foo.safetensors"

/-- A PNG whose single recognized chunk is the scenario-1 `parameters`
text. -/
def scenario1Buf : List Nat := pngSig ++ mkTextChunk "parameters" scenario1Params ++ iendChunk

/-- The Automatic1111 record the parser produces for it. -/
def scenario1Meta : ImageMetadata :=
  .automatic1111 scenario1Params (some (parseA1111Metadata scenario1Params))

set_option maxRecDepth 4000 in
/-- C7: the scenario-1 `parameters` chunk yields an Automatic1111 record
with prompt `"a cat"`, negative prompt `"blurry"`, steps 20, CFG scale 7.5,
seed 42, dimensions `"512x768"`, models `["foo.safetensors"]` and
scheduler `"Euler a"`. -/
theorem scenario1_record_fields :
    parseImageMetadata noExif scenario1Buf = .ok (some scenario1Meta) ∧
    extractPrompt scenario1Meta = .ok "a cat" ∧
    extractNegativePrompt scenario1Meta = some "blurry" ∧
    extractSteps scenario1Meta = some 20 ∧
    extractCfgScale scenario1Meta = some (15 / 2 : Rat) ∧
    extractSeed scenario1Meta = some 42 ∧
    extractDimensions scenario1Meta = some "512x768" ∧
    extractModels scenario1Meta = .ok ["foo.safetensors"] ∧
    extractScheduler scenario1Meta = .ok "Euler a" := by
  refine ⟨rfl, rfl, rfl, by decide, ?_, by decide, rfl, rfl, rfl⟩
  have h : (15 / 2 : Rat) = mkRat 15 2 := by norm_num [mkRat, Rat.normalize]
  rw [h]
  decide

/-! ## Claim C6 -/

/-- C6, counterexample: an InvokeAI record whose `model` and `base_model`
fields hold the same name yields a models list with a repeated entry — the
structured-field pushes of `extractModelsFromInvokeAI` carry no duplicate
check. -/
theorem models_can_repeat_entries :
    extractModels (.invokeai [("model", .str "foo"), ("base_model", .str "foo")] none)
      = .ok ["foo", "foo"] ∧
    ¬ (["foo", "foo"] : List String).Nodup := by
  exact ⟨rfl, by decide⟩

/-- `l ++ [a]` is duplicate-free iff `l` is and `a` is fresh. -/
theorem nodup_append_singleton {a : String} {l : List String}
    (hl : l.Nodup) (ha : a ∉ l) : (l ++ [a]).Nodup := by
  simp [List.nodup_append, hl, ha]

/-- `addCaps` preserves freedom from duplicates. -/
theorem addCaps_nodup (caps : List (List Char)) :
    ∀ l : List String, l.Nodup → (addCaps l caps).Nodup := by
  induction caps with
  | nil => intro l hl; simpa [addCaps] using hl
  | cons c cs ih =>
    intro l hl
    simp only [addCaps, List.foldl_cons]
    by_cases hc : jsTrim (String.mk c) ≠ "" ∧ jsTrim (String.mk c) ∉ l
    · have : (if jsTrim (String.mk c) ≠ "" && !l.contains (jsTrim (String.mk c)) then
          l ++ [jsTrim (String.mk c)] else l) = l ++ [jsTrim (String.mk c)] := by
        simp [hc.1, hc.2]
      rw [this]
      exact ih _ (nodup_append_singleton hl hc.2)
    · have : (if jsTrim (String.mk c) ≠ "" && !l.contains (jsTrim (String.mk c)) then
          l ++ [jsTrim (String.mk c)] else l) = l := by
        rcases not_and_or.mp hc with h | h
        · simp at h
          simp [h]
        · simp at h
          simp [h]
      rw [this]
      exact ih _ hl

/-- C6, amended: the duplicate-freedom guarantee holds where the source
guards its pushes — the two Automatic1111 extractors never return a
repeated entry — while the InvokeAI structured-field path may (see the
counterexample). -/
theorem a1111_extractors_nodup (params : String) :
    (extractModelsFromAutomatic1111 params).Nodup ∧
    (extractLorasFromAutomatic1111 params).Nodup := by
  constructor
  · unfold extractModelsFromAutomatic1111
    cases hm : findCaptureCI "model:".data notCommaNl params.data with
    | none =>
      cases hh : findCaptureCI "model hash:".data isHexC params.data <;> simp
    | some cap =>
      cases hh : findCaptureCI "model hash:".data isHexC params.data <;>
        by_cases hn : jsTrim (String.mk cap) = "" <;> simp [hn]
  · unfold extractLorasFromAutomatic1111
    exact addCaps_nodup _ _ (addCaps_nodup _ _ (by simp))

/-! ## Claim C9 -/

/-- C9: an InvokeAI record with no populated cached prompt, no embedded
`parameters` string, and non-empty `positive_prompt` and `negative_prompt`
yields the positive prompt, the separator `" ### "`, then the negative
prompt. -/
theorem invokeai_prompt_contains_negative (fs : List (String × JValue))
    (nm : Option BaseMetadata) (pos neg : String)
    (hnm : ∀ b, nm = some b → b.prompt = "")
    (hparams : getField fs "parameters" = .jundefined)
    (hpos : getField fs "positive_prompt" = .str pos) (hpne : pos ≠ "")
    (hneg : getField fs "negative_prompt" = .str neg) (hnne : neg ≠ "") :
    extractPrompt (.invokeai fs nm) = .ok (pos ++ " ### " ++ neg) := by
  have hfmt : extractPromptFromFormat (.invokeai fs nm) = .ok (pos ++ " ### " ++ neg) := by
    simp only [extractPromptFromFormat, hpos, hneg]
    simp [JValue.truthy, hpne, hnne, jsToStr]
  cases nm with
  | none =>
    unfold extractPrompt
    simp only [getNM, rawParams, hparams]
    exact hfmt
  | some b =>
    have hb : b.prompt = "" := hnm b rfl
    unfold extractPrompt
    simp only [getNM, rawParams, hparams, hb]
    simpa using hfmt

/-- C9 witness at a concrete record. -/
theorem invokeai_prompt_contains_negative_witness :
    extractPrompt (.invokeai [("positive_prompt", .str "a cat"),
      ("negative_prompt", .str "blurry")] none) = .ok "a cat ### blurry" :=
  invokeai_prompt_contains_negative _ none "a cat" "blurry"
    (fun b hb => by cases hb) rfl rfl (by decide) rfl (by decide)

/-! ## Claim C10 -/

/-- C10: when the Automatic1111 cache was computed from a `parameters`
string with no `Steps:` match (respectively no `CFG scale:` match), the
extractor returns the cached numeric default 0 rather than `undefined`,
because the cache stores `0` and the cache test accepts any number. -/
theorem a1111_missing_keys_yield_zero (params : String) :
    (findCaptureCI "steps:".data isDigitC params.data = none →
      extractSteps (.automatic1111 params (some (parseA1111Metadata params))) = some 0) ∧
    (findCaptureCI "cfg scale:".data (fun c => isDigitC c || c = '.') params.data = none →
      extractCfgScale (.automatic1111 params (some (parseA1111Metadata params))) = some 0) := by
  constructor
  · intro hs
    have hsteps : (parseA1111Metadata params).steps = .num 0 := by
      simp [parseA1111Metadata, hs]
    unfold extractSteps
    simp only [getNM, hsteps]
  · intro hc
    have hcfg : (parseA1111Metadata params).cfgScale = .num 0 := by
      simp [parseA1111Metadata, hc]
    unfold extractCfgScale
    simp only [getNM, hcfg]

/-! ## Claim C5 -/

/-- Decimal value of a digit string (left inverse of `Nat.toDigits 10`). -/
def evalD (l : List Char) : Nat := l.foldl (fun a c => 10 * a + (c.toNat - 48)) 0

theorem toDigitsCore_append (fuel : Nat) :
    ∀ (n : Nat) (ds : List Char),
      Nat.toDigitsCore 10 fuel n ds = Nat.toDigitsCore 10 fuel n [] ++ ds := by
  induction fuel with
  | zero => intro n ds; simp [Nat.toDigitsCore]
  | succ fuel ih =>
    intro n ds
    simp only [Nat.toDigitsCore]
    by_cases h : n / 10 = 0
    · simp [h]
    · simp only [if_neg h]
      rw [ih (n / 10) ((n % 10).digitChar :: ds), ih (n / 10) [(n % 10).digitChar]]
      simp

theorem evalD_append_singleton (xs : List Char) (c : Char) :
    evalD (xs ++ [c]) = 10 * evalD xs + (c.toNat - 48) := by
  simp [evalD, List.foldl_append]

theorem digitChar_val : ∀ k < 10, (Nat.digitChar k).toNat - 48 = k := by decide

theorem toDigitsCore_evalD (fuel : Nat) :
    ∀ n : Nat, n < 10 ^ fuel → evalD (Nat.toDigitsCore 10 fuel n []) = n := by
  induction fuel with
  | zero =>
    intro n hn
    have : n = 0 := by omega
    subst this
    simp [Nat.toDigitsCore, evalD]
  | succ fuel ih =>
    intro n hn
    simp only [Nat.toDigitsCore]
    by_cases h : n / 10 = 0
    · have hlt : n < 10 := by omega
      simp only [if_pos h]
      have hm : n % 10 = n := Nat.mod_eq_of_lt hlt
      simp [evalD, hm, digitChar_val n hlt]
    · simp only [if_neg h]
      rw [toDigitsCore_append, evalD_append_singleton]
      have h10 : n / 10 < 10 ^ fuel := by
        rw [Nat.div_lt_iff_lt_mul (by norm_num)]
        calc n < 10 ^ (fuel + 1) := hn
          _ = 10 ^ fuel * 10 := by ring
      rw [ih (n / 10) h10]
      have hm : n % 10 < 10 := Nat.mod_lt n (by norm_num)
      rw [digitChar_val (n % 10) hm]
      omega

/-- The decimal rendering of a natural number is injective. -/
theorem natRepr_data_injective {m n : Nat}
    (h : (Nat.repr m).data = (Nat.repr n).data) : m = n := by
  have hd : Nat.toDigits 10 m = Nat.toDigits 10 n := by
    simpa [Nat.repr, List.asString] using h
  have hm : evalD (Nat.toDigits 10 m) = m :=
    toDigitsCore_evalD (m + 1) m
      (lt_of_lt_of_le (Nat.lt_pow_self (by norm_num) m)
        (Nat.pow_le_pow_right (by norm_num) (Nat.le_succ m)))
  have hn : evalD (Nat.toDigits 10 n) = n :=
    toDigitsCore_evalD (n + 1) n
      (lt_of_lt_of_le (Nat.lt_pow_self (by norm_num) n)
        (Nat.pow_le_pow_right (by norm_num) (Nat.le_succ n)))
  rw [← hm, ← hn, hd]

/-- The friendly names assigned by the resolver. -/
def mkName (n : Nat) : String := "My Board " ++ Nat.repr n

theorem mkName_injective {a b : Nat} (h : mkName a = mkName b) : a = b := by
  have hd := congrArg String.data h
  simp only [mkName, String.data_append] at hd
  exact natRepr_data_injective (List.append_cancel_left hd)

/-- Reachability invariant of the board cache: the counter is positive,
every cached name is `My Board {n}` for some `0 < n <` counter, and the
cached names are pairwise distinct. -/
def GoodBoard (st : BoardState) : Prop :=
  0 < st.counter ∧
  (∀ p ∈ st.cache, ∃ n, 0 < n ∧ n < st.counter ∧ p.2 = mkName n) ∧
  (st.cache.map Prod.snd).Nodup

theorem goodBoard_init : GoodBoard initialBoardState := by
  refine ⟨by norm_num [initialBoardState], ?_, by simp [initialBoardState]⟩
  intro p hp
  simp [initialBoardState] at hp

theorem gfbn_good (id : String) (st : BoardState) (h : GoodBoard st) :
    GoodBoard (getFriendlyBoardName id st).2 := by
  unfold getFriendlyBoardName
  cases hf : st.cache.find? (fun p => p.1 = id) with
  | some p => simpa [hf] using h
  | none =>
    simp only [hf]
    show GoodBoard ⟨st.cache ++ [(id, mkName st.counter)], st.counter + 1⟩
    refine ⟨Nat.succ_pos _, ?_, ?_⟩
    · intro p hp
      rcases List.mem_append.mp hp with h1 | h2
      · obtain ⟨n, hn0, hnc, he⟩ := h.2.1 p h1
        refine ⟨n, hn0, ?_, he⟩
        show n < st.counter + 1
        omega
      · simp at h2
        refine ⟨st.counter, h.1, ?_, by rw [h2]⟩
        show st.counter < st.counter + 1
        omega
    · rw [List.map_append, List.nodup_append]
      refine ⟨h.2.2, by simp, ?_⟩
      intro v hv hv2
      simp [mkName] at hv2
      obtain ⟨p, hp, hpv⟩ := List.mem_map.mp hv
      obtain ⟨n, hn0, hnc, he⟩ := h.2.1 p hp
      have : mkName n = mkName st.counter := by
        rw [← he, hpv, hv2]
        rfl
      have := mkName_injective this
      omega

theorem gfbn_lookup_self (id : String) (st : BoardState) :
    boardLookup (getFriendlyBoardName id st).2 id =
      some (getFriendlyBoardName id st).1 := by
  unfold getFriendlyBoardName boardLookup
  cases hf : st.cache.find? (fun p => p.1 = id) with
  | some p =>
    simp only [hf]
    have := List.find?_some hf
    simp [hf]
  | none => simp [hf, List.find?_append]

theorem gfbn_pres_lookup (id k : String) (st : BoardState) {v : String}
    (h : boardLookup st k = some v) :
    boardLookup (getFriendlyBoardName id st).2 k = some v := by
  unfold boardLookup at h ⊢
  unfold getFriendlyBoardName
  cases hf : st.cache.find? (fun p => p.1 = id) with
  | some p => simpa [hf] using h
  | none =>
    simp only [hf, List.find?_append]
    obtain ⟨e, he, hev⟩ := Option.map_eq_some'.mp h
    simp [he, hev]

theorem runBoards_length (ids : List String) (st : BoardState) :
    (runBoards ids st).1.length = ids.length := by
  induction ids generalizing st with
  | nil => rfl
  | cons id ids ih => simp [runBoards, ih]

theorem runBoards_good (ids : List String) (st : BoardState) (h : GoodBoard st) :
    GoodBoard (runBoards ids st).2 := by
  induction ids generalizing st with
  | nil => exact h
  | cons id ids ih => exact ih _ (gfbn_good id st h)

theorem runBoards_pres_lookup (ids : List String) (st : BoardState) (k : String)
    {v : String} (h : boardLookup st k = some v) :
    boardLookup (runBoards ids st).2 k = some v := by
  induction ids generalizing st with
  | nil => exact h
  | cons id ids ih => exact ih _ (gfbn_pres_lookup id k st h)

theorem runBoards_lookup (ids : List String) (st : BoardState) :
    ∀ i < ids.length,
      boardLookup (runBoards ids st).2 (ids.getD i "") =
        some ((runBoards ids st).1.getD i "") := by
  induction ids generalizing st with
  | nil => intro i hi; simp at hi
  | cons id ids ih =>
    intro i hi
    match i with
    | 0 =>
      simp only [List.getD_cons_zero, runBoards]
      exact runBoards_pres_lookup ids _ id (gfbn_lookup_self id st)
    | i + 1 =>
      simp only [List.getD_cons_succ, runBoards]
      exact ih _ i (by simpa using hi)

theorem boardLookup_mem {st : BoardState} {k v : String}
    (h : boardLookup st k = some v) : (k, v) ∈ st.cache := by
  unfold boardLookup at h
  obtain ⟨e, he, hev⟩ := Option.map_eq_some'.mp h
  have hm := List.mem_of_find?_eq_some he
  have hp := List.find?_some he
  simp at hp
  have : e = (k, v) := by
    cases e
    simp_all
  rw [← this]
  exact hm

theorem goodBoard_values_inj {st : BoardState} (h : GoodBoard st)
    {k1 k2 v : String} (h1 : (k1, v) ∈ st.cache) (h2 : (k2, v) ∈ st.cache) :
    k1 = k2 := by
  have := List.inj_on_of_nodup_map h.2.2 h1 h2 rfl
  exact congrArg Prod.fst this

/-- C5: resolving board ids through one process-wide cache, started empty,
is stable and collision-free — for every id sequence, two resolutions
return the same friendly name exactly when they were for the same id, and
every assigned name has the form `"My Board {n}"`. -/
theorem board_resolution_stable_injective (ids : List String) (i j : Nat)
    (hi : i < ids.length) (hj : j < ids.length) :
    (ids.getD i "" = ids.getD j "" ↔
      (runBoards ids initialBoardState).1.getD i "" =
        (runBoards ids initialBoardState).1.getD j "") ∧
    ∃ n, 0 < n ∧
      (runBoards ids initialBoardState).1.getD i "" = "My Board " ++ Nat.repr n := by
  have hgood := runBoards_good ids initialBoardState goodBoard_init
  have h1 := runBoards_lookup ids initialBoardState i hi
  have h2 := runBoards_lookup ids initialBoardState j hj
  constructor
  · constructor
    · intro he
      rw [he, h2] at h1
      exact ((Option.some.injEq _ _).mp h1).symm
    · intro hn
      rw [hn] at h1
      have hm1 := boardLookup_mem h1
      have hm2 := boardLookup_mem h2
      exact goodBoard_values_inj hgood hm1 hm2
  · have hm1 := boardLookup_mem h1
    obtain ⟨n, hn0, _, he⟩ := hgood.2.1 _ hm1
    exact ⟨n, hn0, he⟩

/-- C5 witness: resolving `["a", "b", "a"]` names the repeated id
identically and the distinct ids differently. -/
theorem board_resolution_witness :
    ((["a", "b", "a"] : List String).getD 0 "" = (["a", "b", "a"] : List String).getD 2 "" ↔
      (runBoards ["a", "b", "a"] initialBoardState).1.getD 0 "" =
        (runBoards ["a", "b", "a"] initialBoardState).1.getD 2 "") ∧
    ((["a", "b", "a"] : List String).getD 0 "" = (["a", "b", "a"] : List String).getD 1 "" ↔
      (runBoards ["a", "b", "a"] initialBoardState).1.getD 0 "" =
        (runBoards ["a", "b", "a"] initialBoardState).1.getD 1 "") :=
  ⟨(board_resolution_stable_injective ["a", "b", "a"] 0 2 (by decide) (by decide)).1,
   (board_resolution_stable_injective ["a", "b", "a"] 0 1 (by decide) (by decide)).1⟩

/-! ## Claim C2 -/

/-- C2, counterexample: `extractBoard` does NOT prefer the normalized
cache.  A record whose cache carries a populated `board` still resolves the
board from the raw variant: the raw `board_name` is returned, not the
cached value. -/
theorem extractBoard_ignores_populated_cache :
    extractBoard (.invokeai [("board_name", .str "RawBoard")]
      (some { board := "CachedBoard" })) initialBoardState
      = .ok ("RawBoard", initialBoardState) ∧
    ("RawBoard" : String) ≠ "CachedBoard" := by
  exact ⟨rfl, by decide⟩

/-- C2, amended: every field extractor except the board extractor prefers a
populated cache field and returns it verbatim; `extractBoard` never
consults the cache — its result is invariant under replacing the attached
cache. -/
theorem extractors_prefer_cache (m : ImageMetadata) (nm : BaseMetadata)
    (hm : getNM m = some nm) :
    (nm.prompt ≠ "" → extractPrompt m = .ok nm.prompt) ∧
    (nm.negativePrompt ≠ "" → extractNegativePrompt m = some nm.negativePrompt) ∧
    (∀ l, nm.models = some l → extractModels m = .ok l) ∧
    (∀ l, nm.loras = some l → extractLoras m = .ok l) ∧
    (nm.scheduler ≠ "" → extractScheduler m = .ok nm.scheduler) ∧
    (∀ q, nm.cfgScale = .num q → extractCfgScale m = some q) ∧
    (∀ q, nm.steps = .num q → extractSteps m = some q) ∧
    (∀ q, nm.seed = .num q → extractSeed m = some q) ∧
    (nm.width.truthy = true → nm.height.truthy = true →
      extractDimensions m = some (jsToStr nm.width ++ "x" ++ jsToStr nm.height)) ∧
    (∀ nm' st, extractBoard (setNM m nm') st = extractBoard m st) := by
  refine ⟨?_, ?_, ?_, ?_, ?_, ?_, ?_, ?_, ?_, ?_⟩
  · intro h
    unfold extractPrompt
    rw [hm]
    simp [h]
  · intro h
    unfold extractNegativePrompt
    rw [hm]
    simp [h]
  · intro l hl
    unfold extractModels
    rw [hm]
    simp [hl]
  · intro l hl
    unfold extractLoras
    rw [hm]
    simp [hl]
  · intro h
    unfold extractScheduler
    rw [hm]
    simp [h]
  · intro q hq
    unfold extractCfgScale
    rw [hm]
    simp [hq]
  · intro q hq
    unfold extractSteps
    rw [hm]
    simp [hq]
  · intro q hq
    unfold extractSeed
    rw [hm]
    simp [hq]
  · intro h1 h2
    unfold extractDimensions
    rw [hm]
    simp [h1, h2]
  · intro nm' st
    cases m <;> rfl

/-- The cache record used by the C2 witness. -/
def nmEx : BaseMetadata :=
  { prompt := "P", negativePrompt := "N", models := some ["M"], loras := some ["L"],
    scheduler := "S", board := "B", cfgScale := .num 3, steps := .num 4,
    seed := .num 5, width := .num 6, height := .num 7 }

def mEx : ImageMetadata := .automatic1111 "raw" (some nmEx)

/-- C2's amended-claim witness at a concrete cached record. -/
theorem extractors_prefer_cache_witness :
    extractPrompt mEx = .ok "P" ∧ extractNegativePrompt mEx = some "N" ∧
    extractModels mEx = .ok ["M"] ∧ extractLoras mEx = .ok ["L"] ∧
    extractScheduler mEx = .ok "S" ∧ extractCfgScale mEx = some 3 ∧
    extractSteps mEx = some 4 ∧ extractSeed mEx = some 5 ∧
    extractDimensions mEx = some "6x7" ∧
    extractBoard (setNM mEx none) initialBoardState = extractBoard mEx initialBoardState := by
  have h := extractors_prefer_cache mEx nmEx rfl
  exact ⟨h.1 (by decide), h.2.1 (by decide), h.2.2.1 _ rfl, h.2.2.2.1 _ rfl,
    h.2.2.2.2.1 (by decide), h.2.2.2.2.2.1 _ rfl, h.2.2.2.2.2.2.1 _ rfl,
    h.2.2.2.2.2.2.2.1 _ rfl, by
      have := h.2.2.2.2.2.2.2.2.1 (by decide) (by decide)
      simpa [jsToStr, numToStr, nmEx] using this,
    h.2.2.2.2.2.2.2.2.2 none initialBoardState⟩

/-- C10 witness at a parameters string with neither key. -/
theorem a1111_missing_keys_yield_zero_witness :
    extractSteps (.automatic1111 "a cat" (some (parseA1111Metadata "a cat"))) = some 0 ∧
    extractCfgScale (.automatic1111 "a cat" (some (parseA1111Metadata "a cat"))) = some 0 :=
  ⟨(a1111_missing_keys_yield_zero "a cat").1 rfl,
   (a1111_missing_keys_yield_zero "a cat").2 rfl⟩

end ImgMeta
